import Mathlib

/-
Verification of the Phabricator backend (perceval/backends/phabricator.py).

The embedding models the fetch pipeline of the `Phabricator` backend and its
`ConduitClient`.  Raw HTTP response bodies are represented by their decoded
JSON values (`Json` below): the code only ever passes response text around,
decodes it with json.loads, or stores it in the cache queue, so identifying a
raw payload with its (unique) decoded value loses nothing the claims talk
about.  Stateful execution (the per-instance `_users` memoization dict and the
cache queue inherited from `Backend`) is explicit state passing; every network
call, queue push, queue flush, queue purge and yielded task is recorded in an
event trace, in the order the Python code performs them.  Python exceptions
are modelled by `PyErr` through `Except`.
-/

/-- JSON values, as produced by json.loads.  Objects model Python dicts built
by json.loads: keys are distinct and in insertion order.  Numbers are modelled
as integers (no claim involves fractional values). -/
inductive Json where
  | null : Json
  | bool : Bool → Json
  | num : Int → Json
  | str : String → Json
  | arr : List Json → Json
  | obj : List (String × Json) → Json

mutual

/-- Boolean equality of JSON values (deriving does not handle the nested
inductive). -/
def Json.beq : Json → Json → Bool
  | Json.null, Json.null => true
  | Json.bool a, Json.bool b => a == b
  | Json.num a, Json.num b => a == b
  | Json.str a, Json.str b => a == b
  | Json.arr xs, Json.arr ys => Json.beqList xs ys
  | Json.obj xs, Json.obj ys => Json.beqObj xs ys
  | _, _ => false

/-- Boolean equality of JSON arrays. -/
def Json.beqList : List Json → List Json → Bool
  | [], [] => true
  | x :: xs, y :: ys => Json.beq x y && Json.beqList xs ys
  | _, _ => false

/-- Boolean equality of JSON object member lists. -/
def Json.beqObj : List (String × Json) → List (String × Json) → Bool
  | [], [] => true
  | (k1, v1) :: xs, (k2, v2) :: ys =>
    k1 == k2 && Json.beq v1 v2 && Json.beqObj xs ys
  | _, _ => false

end

mutual

/-- `Json.beq` decides equality. -/
theorem Json.beq_iff : ∀ a b : Json, Json.beq a b = true ↔ a = b
  | Json.null, b => by cases b <;> simp [Json.beq]
  | Json.bool x, b => by cases b <;> simp [Json.beq]
  | Json.num x, b => by cases b <;> simp [Json.beq]
  | Json.str x, b => by cases b <;> simp [Json.beq]
  | Json.arr xs, b => by
    cases b <;> simp [Json.beq]
    exact Json.beqList_iff xs _
  | Json.obj xs, b => by
    cases b <;> simp [Json.beq]
    exact Json.beqObj_iff xs _

/-- `Json.beqList` decides equality of arrays. -/
theorem Json.beqList_iff : ∀ xs ys : List Json, Json.beqList xs ys = true ↔ xs = ys
  | [], ys => by cases ys <;> simp [Json.beqList]
  | x :: xs, ys => by
    cases ys with
    | nil => simp [Json.beqList]
    | cons y ys =>
      simp only [Json.beqList, Bool.and_eq_true, List.cons.injEq]
      rw [Json.beq_iff x y, Json.beqList_iff xs ys]

/-- `Json.beqObj` decides equality of object member lists. -/
theorem Json.beqObj_iff :
    ∀ xs ys : List (String × Json), Json.beqObj xs ys = true ↔ xs = ys
  | [], ys => by cases ys <;> simp [Json.beqObj]
  | (k1, v1) :: xs, ys => by
    cases ys with
    | nil => simp [Json.beqObj]
    | cons y ys =>
      obtain ⟨k2, v2⟩ := y
      simp only [Json.beqObj, Bool.and_eq_true, List.cons.injEq, Prod.mk.injEq,
        beq_iff_eq, Json.beq_iff v1 v2, Json.beqObj_iff xs ys]

end

instance : DecidableEq Json := fun a b =>
  decidable_of_iff (Json.beq a b = true) (Json.beq_iff a b)

/-- Python truthiness (`bool(x)`) of a decoded JSON value: None, False, 0,
empty string, empty list and empty dict are falsy. -/
def jsonTruthy : Json → Bool
  | Json.null => false
  | Json.bool b => b
  | Json.num n => decide (n ≠ 0)
  | Json.str s => decide (s ≠ "")
  | Json.arr xs => !xs.isEmpty
  | Json.obj kvs => !kvs.isEmpty

/-- First-match association-list lookup (Python dict read `d[k]`; keys are
distinct in dicts built by json.loads, so first match is the match). -/
def alistGet {κ α : Type} [DecidableEq κ] : List (κ × α) → κ → Option α
  | [], _ => none
  | (k1, v1) :: rest, k => if k1 = k then some v1 else alistGet rest k

/-- Python dict write `d[k] = v`: replace the value at an existing key in
place, otherwise append the new key at the end. -/
def alistSet {κ α : Type} [DecidableEq κ] : List (κ × α) → κ → α → List (κ × α)
  | [], k, v => [(k, v)]
  | (k1, v1) :: rest, k, v =>
    if k1 = k then (k, v) :: rest else (k1, v1) :: alistSet rest k v

/-- Python subscript read `j[k]` with a string key.  `none` models the raised
exception: KeyError when the key is missing, or TypeError when `j` is not a
dict (the two are not distinguished by any claim). -/
def Json.getItem : Json → String → Option Json
  | Json.obj kvs, k => alistGet kvs k
  | _, _ => none

/-- Python subscript write `j[k] = v` on a dict; `none` models the TypeError
raised when `j` is not a dict. -/
def Json.setItem : Json → String → Json → Option Json
  | Json.obj kvs, k, v => some (Json.obj (alistSet kvs k v))
  | _, _, _ => none

/-- Python iteration `for x in j`: lists yield their elements, strings yield
their characters (as one-character strings), dicts yield their keys; None,
booleans and numbers are not iterable (`none` models the TypeError). -/
def pyIter : Json → Option (List Json)
  | Json.arr xs => some xs
  | Json.str s => some (s.toList.map (fun c => Json.str (String.singleton c)))
  | Json.obj kvs => some (kvs.map (fun kv => Json.str kv.1))
  | _ => none

/-- Minimal JSON string escaping used by the serializer: backslash and
double quote. -/
def escapeChar (c : Char) : String :=
  if c = '\\' then "\\\\" else if c = '\"' then "\\\"" else String.singleton c

/-- Escape every character of a string for JSON output. -/
def escapeString (s : String) : String :=
  s.toList.foldl (fun acc c => acc ++ escapeChar c) ""

mutual

/-- Serialization of a JSON value back to text, in the style of json.dumps
(separators a comma-space and a colon-space). -/
def Json.dumps : Json → String
  | Json.null => "null"
  | Json.bool true => "true"
  | Json.bool false => "false"
  | Json.num n => toString n
  | Json.str s => "\"" ++ escapeString s ++ "\""
  | Json.arr xs => "[" ++ Json.dumpsList xs ++ "]"
  | Json.obj kvs => "\x7b" ++ Json.dumpsObj kvs ++ "\x7d"

/-- Serialize the elements of a JSON array. -/
def Json.dumpsList : List Json → String
  | [] => ""
  | [x] => Json.dumps x
  | x :: y :: rest => Json.dumps x ++ ", " ++ Json.dumpsList (y :: rest)

/-- Serialize the members of a JSON object. -/
def Json.dumpsObj : List (String × Json) → String
  | [] => ""
  | [(k, v)] => "\"" ++ escapeString k ++ "\": " ++ Json.dumps v
  | (k, v) :: m :: rest =>
    "\"" ++ escapeString k ++ "\": " ++ Json.dumps v ++ ", " ++
      Json.dumpsObj (m :: rest)

end

instance : Repr Json := ⟨fun j _ => Std.Format.text (Json.dumps j)⟩

/-- Python `str(x)` for the values the code converts (task ids: numbers or
strings).  Containers are rendered through the JSON serializer; Python's repr
of containers differs in quoting, but no code path the claims exercise
stringifies a container. -/
def pyStr : Json → String
  | Json.null => "None"
  | Json.bool true => "True"
  | Json.bool false => "False"
  | Json.num n => toString n
  | Json.str s => s
  | Json.arr xs => Json.dumps (Json.arr xs)
  | Json.obj kvs => Json.dumps (Json.obj kvs)

/-- Python exceptions the pipeline can raise.  `conduit info code` is
ConduitError(error=info, code=code) from the source; `http` models
requests exceptions out of raise_for_status (a transport-level failure);
keyError / typeError / indexError model the builtin lookup and indexing
errors (KeyError and TypeError on a failed subscript are not distinguished
beyond the key name involved). -/
inductive PyErr where
  | conduit (info : Json) (code : Json)
  | http (status : Nat)
  | keyError (key : String)
  | typeError : PyErr
  | indexError : PyErr
deriving DecidableEq, Repr

/-- Outcome of one HTTP POST issued by ConduitClient._call: either the
exchange fails at the HTTP level (non-success status, modelled together with
connection failures by the status code raise_for_status reports), or it
succeeds with a decoded response body. -/
inductive HttpResult where
  | failure (status : Nat)
  | success (body : Json)

/-- The remote Phabricator server, as the client observes it within one fetch
session: the response to each maniphest.search call is a function of the
`after` cursor parameter sent (`none` on the first call; the from_date
constraint and order parameters are fixed for the whole session and are
absorbed into `tasksAt`); maniphest.gettasktransactions and user.query
responses are functions of the identifier lists sent. -/
structure Server where
  tasksAt : Option Json → HttpResult
  transactions : List Json → HttpResult
  users : List Json → HttpResult

/-- One network request, as recorded in the event trace. -/
inductive NetCall where
  | tasksCall (after : Option Json)
  | transCall (ids : List Json)
  | usersCall (phids : List Json)
deriving DecidableEq, Repr

/-- Observable events of a fetch run, in program order: a network request, a
push onto the cache queue, a flush (recording the entries persisted), a purge
(recording the entries discarded), and a task yielded to the consumer. -/
inductive Event where
  | call (c : NetCall)
  | push (raw : Json)
  | flush (persisted : List Json)
  | purge (discarded : List Json)
  | yieldTask (t : Json)
deriving DecidableEq, Repr

/-- Mutable state of a Phabricator backend instance: the `_users`
memoization dict (set up in `__init__`) and the cache queue inherited from
`Backend` (a list of raw payloads, oldest first). -/
structure St where
  users : List (Json × Json)
  queue : List Json
deriving DecidableEq, Repr

/-- A pipeline computation: from a backend state, produce a result (or a
raised exception), the new state, and the trace of events it performed. -/
def M (α : Type) : Type := St → Except PyErr α × St × List Event

/-- Return a value, change nothing. -/
def mret {α : Type} (a : α) : M α := fun s => (Except.ok a, s, [])

/-- Raise an exception. -/
def mthrow {α : Type} (e : PyErr) : M α := fun s => (Except.error e, s, [])

/-- Sequence two computations; an exception in the first skips the second
(Python exception propagation). -/
def mbind {α β : Type} (m : M α) (f : α → M β) : M β := fun s =>
  match m s with
  | (Except.ok a, s1, ev1) =>
    match f a s1 with
    | (r, s2, ev2) => (r, s2, ev1 ++ ev2)
  | (Except.error e, s1, ev1) => (Except.error e, s1, ev1)

/-- Record one event. -/
def emit (e : Event) : M Unit := fun s => (Except.ok (), s, [e])

/-- Lift a pure, possibly-raising step into the pipeline. -/
def mofExcept {α : Type} (r : Except PyErr α) : M α := fun s => (r, s, [])

/-- Lift a Python subscript (or similar Option-valued step), raising `e` on
`none`. -/
def mofOption {α : Type} (o : Option α) (e : PyErr) : M α :=
  match o with
  | some a => mret a
  | none => mthrow e

/-- The result component of running a pipeline computation. -/
def runRes {α : Type} (m : M α) (s : St) : Except PyErr α := (m s).1

/-- The final state of running a pipeline computation. -/
def runSt {α : Type} (m : M α) (s : St) : St := (m s).2.1

/-- The event trace of running a pipeline computation. -/
def runEv {α : Type} (m : M α) (s : St) : List Event := (m s).2.2

/-- ConduitClient._call, given the outcome of the HTTP POST it issues: a
failed exchange raises (raise_for_status); otherwise the decoded body's
error_code field is checked, a truthy value raises
ConduitError(error=error_info, code=error_code), and otherwise the raw
response body is returned unmodified. -/
def ConduitClient.callResult (r : HttpResult) : Except PyErr Json :=
  match r with
  | HttpResult.failure status => Except.error (PyErr.http status)
  | HttpResult.success body =>
    match body.getItem "error_code" with
    | none => Except.error (PyErr.keyError "error_code")
    | some code =>
      if jsonTruthy code then
        match body.getItem "error_info" with
        | none => Except.error (PyErr.keyError "error_info")
        | some info => Except.error (PyErr.conduit info code)
      else
        Except.ok body

/-- Issue one Conduit call in the pipeline: record the network request, then
behave as ConduitClient._call on the server's response. -/
def conduitM (c : NetCall) (r : HttpResult) : M Json :=
  mbind (emit (Event.call c)) (fun _ => mofExcept (ConduitClient.callResult r))

/-- Phabricator.parse_tasks: json.loads, then results['result']['data'],
iterated into a list. -/
def Phabricator.parse_tasks (raw : Json) : Except PyErr (List Json) :=
  match raw.getItem "result" with
  | none => Except.error (PyErr.keyError "result")
  | some res =>
    match res.getItem "data" with
    | none => Except.error (PyErr.keyError "data")
    | some d =>
      match pyIter d with
      | none => Except.error PyErr.typeError
      | some ts => Except.ok ts

/-- Phabricator.parse_tasks_transactions: json.loads, then
results['result'], returned as is. -/
def Phabricator.parse_tasks_transactions (raw : Json) : Except PyErr Json :=
  match raw.getItem "result" with
  | none => Except.error (PyErr.keyError "result")
  | some res => Except.ok res

/-- Phabricator.parse_users: json.loads, then results['result'], iterated
into a list. -/
def Phabricator.parse_users (raw : Json) : Except PyErr (List Json) :=
  match raw.getItem "result" with
  | none => Except.error (PyErr.keyError "result")
  | some res =>
    match pyIter res with
    | none => Except.error PyErr.typeError
    | some us => Except.ok us

/-- Modelled from the spec: Backend._push_cache_queue (the Backend base class
is not among the repository files).  Spec 4.3: push appends the raw payload
to the in-flight sequence. -/
def Phabricator.push_cache_queue (raw : Json) : M Unit := fun s =>
  (Except.ok (), St.mk s.users (s.queue ++ [raw]), [Event.push raw])

/-- Modelled from the spec: Backend._flush_cache_queue (the Backend base
class is not among the repository files).  Spec 4.3: flush persists the
entire queued sequence, all or nothing, and clears it. -/
def Phabricator.flush_cache_queue : M Unit := fun s =>
  (Except.ok (), St.mk s.users [], [Event.flush s.queue])

/-- Modelled from the spec: Backend._purge_cache_queue (the Backend base
class is not among the repository files).  Spec 4.3: purge discards any
leftover entries without persisting them. -/
def Phabricator.purge_cache_queue : M Unit := fun s =>
  (Except.ok (), St.mk s.users [], [Event.purge s.queue])

/-- Read the `_users` memoization dict. -/
def getUsers : M (List (Json × Json)) := fun s => (Except.ok s.users, s, [])

/-- `self._users[user_id] = user`. -/
def storeUser (user_id user : Json) : M Unit := fun s =>
  (Except.ok (), St.mk (alistSet s.users user_id user) s.queue, [])

/-- Phabricator.__fetch_and_parse_users: one user.query call, push of its raw
response onto the cache queue, then parse_users. -/
def Phabricator.fetch_and_parse_users (srv : Server) (users_ids : List Json) :
    M (List Json) :=
  mbind (conduitM (NetCall.usersCall users_ids) (srv.users users_ids)) (fun raw =>
  mbind (Phabricator.push_cache_queue raw) (fun _ =>
  mofExcept (Phabricator.parse_users raw)))

/-- Phabricator.__get_or_fetch_user: return the cached record on a hit;
on a miss fetch and parse the single identifier, take element [0] of the
parsed list (IndexError when it is empty), store it and return it. -/
def Phabricator.get_or_fetch_user (srv : Server) (user_id : Json) : M Json :=
  mbind getUsers (fun cache =>
    match alistGet cache user_id with
    | some u => mret u
    | none =>
      mbind (Phabricator.fetch_and_parse_users srv [user_id]) (fun users =>
        match users with
        | [] => mthrow PyErr.indexError
        | u :: _ => mbind (storeUser user_id u) (fun _ => mret u)))

/-- One transaction record of the bulk response: read tt['authorPHID'],
resolve the author, set tt['authorData'] (in-place dict update). -/
def enrichTransaction (srv : Server) (tt : Json) : M Json :=
  mbind (mofOption (tt.getItem "authorPHID") (PyErr.keyError "authorPHID"))
    (fun author_id =>
  mbind (Phabricator.get_or_fetch_user srv author_id) (fun author =>
  mofOption (tt.setItem "authorData" author) PyErr.typeError))

/-- The inner `for tt in trans` loop over the elements of one value of the
transactions mapping, left to right. -/
def enrichTransList (srv : Server) : List Json → M (List Json)
  | [] => mret []
  | tt :: tts =>
    mbind (enrichTransaction srv tt) (fun tt1 =>
    mbind (enrichTransList srv tts) (fun tts1 => mret (tt1 :: tts1)))

/-- One value of the transactions mapping.  Iterating a JSON array visits its
element dicts, and the in-place updates of those elements rebuild the array;
iterating any other iterable value (a string or a dict) visits derived
strings, so the updates are lost and the value itself is left unchanged,
exactly as in Python; a non-iterable value raises TypeError. -/
def enrichTransValue (srv : Server) (v : Json) : M Json :=
  match pyIter v with
  | none => mthrow PyErr.typeError
  | some elems =>
    mbind (enrichTransList srv elems) (fun elems1 =>
      match v with
      | Json.arr _ => mret (Json.arr elems1)
      | _ => mret v)

/-- The `for trans in tasks_trans.values()` loop, in key order. -/
def enrichTransMap (srv : Server) : List (String × Json) →
    M (List (String × Json))
  | [] => mret []
  | (k, v) :: rest =>
    mbind (enrichTransValue srv v) (fun v1 =>
    mbind (enrichTransMap srv rest) (fun rest1 => mret ((k, v1) :: rest1)))

/-- Phabricator.__fetch_and_parse_tasks_transactions: one bulk
maniphest.gettasktransactions call for the page's task ids, push of its raw
response, parse, then author resolution for every transaction of every task
of the response (a non-dict result raises when its values are iterated). -/
def Phabricator.fetch_and_parse_tasks_transactions (srv : Server)
    (tasks_ids : List Json) : M Json :=
  mbind (conduitM (NetCall.transCall tasks_ids) (srv.transactions tasks_ids))
    (fun raw =>
  mbind (Phabricator.push_cache_queue raw) (fun _ =>
  mbind (mofExcept (Phabricator.parse_tasks_transactions raw)) (fun res =>
    match res with
    | Json.obj kvs =>
      mbind (enrichTransMap srv kvs) (fun kvs1 => mret (Json.obj kvs1))
    | _ => mthrow PyErr.typeError)))

/-- `tasks_ids = [t['id'] for t in tasks]`. -/
def extractIds : List Json → Except PyErr (List Json)
  | [] => Except.ok []
  | t :: ts =>
    match t.getItem "id" with
    | none => Except.error (PyErr.keyError "id")
    | some i =>
      match extractIds ts with
      | Except.ok rest => Except.ok (i :: rest)
      | Except.error e => Except.error e

/-- The pure assembly of one enriched task (lines 102-104 of the source):
task['fields']['authorData'] = author; task['fields']['ownerData'] = owner;
task['transactions'] = trans.  `none` models the TypeError of subscripting a
non-dict. -/
def Phabricator.enrichTask (task author owner trans : Json) : Option Json :=
  match task.getItem "fields" with
  | none => none
  | some fields =>
    match fields.setItem "authorData" author with
    | none => none
    | some fields1 =>
      match fields1.setItem "ownerData" owner with
      | none => none
      | some fields2 =>
        match task.setItem "fields" fields2 with
        | none => none
        | some task1 => task1.setItem "transactions" trans

/-- The per-task body of Phabricator.__fetch_tasks (lines 97-106): read the
id and the author/owner PHIDs, resolve both identities, look the task's
transaction list up by the stringified id, assemble the enriched task and
yield it. -/
def processTask (srv : Server) (tasks_trans task : Json) : M Unit :=
  mbind (mofOption (task.getItem "id") (PyErr.keyError "id")) (fun i =>
  mbind (mofOption (task.getItem "fields") (PyErr.keyError "fields"))
    (fun fields =>
  mbind (mofOption (fields.getItem "authorPHID") (PyErr.keyError "authorPHID"))
    (fun author_id =>
  mbind (mofOption (fields.getItem "ownerPHID") (PyErr.keyError "ownerPHID"))
    (fun owner_id =>
  mbind (Phabricator.get_or_fetch_user srv author_id) (fun author =>
  mbind (Phabricator.get_or_fetch_user srv owner_id) (fun owner =>
  mbind (mofOption (tasks_trans.getItem (pyStr i)) (PyErr.keyError (pyStr i)))
    (fun trans =>
  mbind (mofOption (Phabricator.enrichTask task author owner trans)
      PyErr.typeError)
    (fun task2 => emit (Event.yieldTask task2)))))))))

/-- The `for task in tasks` loop of one page, left to right. -/
def processTasks (srv : Server) (tasks_trans : Json) : List Json → M Unit
  | [] => mret ()
  | t :: ts =>
    mbind (processTask srv tasks_trans t) (fun _ =>
      processTasks srv tasks_trans ts)

/-- What one processed page tells the page loop to do next. -/
inductive PageOutcome where
  | emptyPage : PageOutcome
  | lastPage : PageOutcome
  | nextCursor (after : Json) : PageOutcome
deriving DecidableEq, Repr

/-- Cursor extraction on generator resumption (ConduitClient.tasks line 267):
j['result']['cursor']['after']. -/
def cursorAfter (raw : Json) : Except PyErr Json :=
  match raw.getItem "result" with
  | none => Except.error (PyErr.keyError "result")
  | some res =>
    match res.getItem "cursor" with
    | none => Except.error (PyErr.keyError "cursor")
    | some cur =>
      match cur.getItem "after" with
      | none => Except.error (PyErr.keyError "after")
      | some a => Except.ok a

/-- The cursor decision of ConduitClient.tasks lines 267-270: a falsy cursor
stops the generator after the page it just yielded, a truthy one becomes the
`after` parameter of the next call. -/
def pageNext (raw : Json) : Except PyErr PageOutcome :=
  match cursorAfter raw with
  | Except.error e => Except.error e
  | Except.ok c =>
    Except.ok (if jsonTruthy c then PageOutcome.nextCursor c
               else PageOutcome.lastPage)

/-- One iteration of the `for raw_tasks in self.client.tasks(...)` loop of
Phabricator.__fetch_tasks, together with the ConduitClient.tasks generator
steps that drive it: issue the maniphest.search call for the current cursor,
push the raw page, parse it; an empty task list breaks out of the loop (the
generator is abandoned, its cursor never examined); otherwise fetch and
enrich the page's transactions, enrich and yield every task, flush the cache
queue, and only then resume the generator, which examines the cursor. -/
def processPage (srv : Server) (after : Option Json) : M PageOutcome :=
  mbind (conduitM (NetCall.tasksCall after) (srv.tasksAt after)) (fun raw =>
  mbind (Phabricator.push_cache_queue raw) (fun _ =>
  mbind (mofExcept (Phabricator.parse_tasks raw)) (fun tasks =>
    if tasks = [] then mret PageOutcome.emptyPage
    else
      mbind (mofExcept (extractIds tasks)) (fun tasks_ids =>
      mbind (Phabricator.fetch_and_parse_tasks_transactions srv tasks_ids)
        (fun tasks_trans =>
      mbind (processTasks srv tasks_trans tasks) (fun _ =>
      mbind Phabricator.flush_cache_queue (fun _ =>
      mofExcept (pageNext raw))))))))

/-- How a fetch run ended: `done` is normal generator exhaustion; `fuelOut`
means the page-count bound of the model was reached (the Python loop has no
such bound; every claim about termination supplies enough fuel). -/
inductive FetchEnd where
  | done : FetchEnd
  | fuelOut : FetchEnd
deriving DecidableEq, Repr

/-- The page loop of Phabricator.__fetch_tasks, driven by the
ConduitClient.tasks generator, processing at most `fuel` pages. -/
def fetchPages (srv : Server) : Nat → Option Json → M FetchEnd
  | 0, _ => mret FetchEnd.fuelOut
  | Nat.succ fuel, after =>
    mbind (processPage srv after) (fun po =>
      match po with
      | PageOutcome.emptyPage => mret FetchEnd.done
      | PageOutcome.lastPage => mret FetchEnd.done
      | PageOutcome.nextCursor a => fetchPages srv fuel (some a))

/-- Phabricator.fetch: purge the cache queue, then yield every task of every
page.  The `_users` dict is whatever the instance state holds (it is
initialized once, in `Phabricator.__init__`); timestamp normalization of
from_date is an external utility and is absorbed into the server model. -/
def Phabricator.fetch (srv : Server) (fuel : Nat) : M FetchEnd :=
  mbind Phabricator.purge_cache_queue (fun _ => fetchPages srv fuel none)

/-- The state of a freshly constructed backend instance
(Phabricator.__init__: `self._users = {}`; the Backend cache queue starts
empty). -/
def initSt : St := St.mk [] []

/-
Helper lemmas: association lists.
-/

theorem alistGet_set_eq {κ α : Type} [DecidableEq κ] (l : List (κ × α)) (k : κ)
    (v : α) : alistGet (alistSet l k v) k = some v := by
  induction l with
  | nil => simp [alistGet, alistSet]
  | cons h t ih =>
    obtain ⟨k1, v1⟩ := h
    by_cases hk : k1 = k
    · simp [alistGet, alistSet, hk]
    · simp [alistGet, alistSet, hk, ih]

theorem alistGet_set_ne {κ α : Type} [DecidableEq κ] (l : List (κ × α))
    (k k1 : κ) (v : α) (h : k1 ≠ k) :
    alistGet (alistSet l k v) k1 = alistGet l k1 := by
  have hne : ¬k = k1 := fun hh => h hh.symm
  induction l with
  | nil =>
    simp only [alistSet, alistGet]
    rw [if_neg hne]
  | cons hd t ih =>
    obtain ⟨k2, v2⟩ := hd
    simp only [alistSet]
    by_cases hk : k2 = k
    · subst hk
      rw [if_pos rfl]
      simp only [alistGet]
      rw [if_neg hne, if_neg hne]
    · rw [if_neg hk]
      simp only [alistGet]
      by_cases hk1 : k2 = k1
      · rw [if_pos hk1, if_pos hk1]
      · rw [if_neg hk1, if_neg hk1, ih]

theorem alistGet_set_isSome {κ α : Type} [DecidableEq κ] (l : List (κ × α))
    (k k1 : κ) (v : α) :
    (alistGet (alistSet l k v) k1).isSome = true ↔
      k1 = k ∨ (alistGet l k1).isSome = true := by
  by_cases hk : k1 = k
  · subst hk
    simp [alistGet_set_eq]
  · rw [alistGet_set_ne l k k1 v hk]
    simp [hk]

theorem alistGet_mem {κ α : Type} [DecidableEq κ] (l : List (κ × α)) (k : κ)
    (v : α) (h : alistGet l k = some v) : (k, v) ∈ l := by
  induction l with
  | nil => simp [alistGet] at h
  | cons hd t ih =>
    obtain ⟨k1, v1⟩ := hd
    simp only [alistGet] at h
    by_cases hk : k1 = k
    · rw [if_pos hk] at h
      injection h with hv
      subst hk
      subst hv
      exact List.mem_cons_self _ _
    · rw [if_neg hk] at h
      exact List.mem_cons_of_mem _ (ih h)

/-
Helper definitions and lemmas: event traces.
-/

/-- Membership of a JSON value in a list of JSON values. -/
def listElemJ (u : Json) : List Json → Bool
  | [] => false
  | p :: ps => if p = u then true else listElemJ u ps

/-- Does this event record a user.query network request that asks about
identifier `u`? -/
def isUserCallFor (u : Json) : Event → Bool
  | Event.call (NetCall.usersCall ps) => listElemJ u ps
  | _ => false

/-- How many user.query network requests of the trace ask about `u`. -/
def countUserCalls (evs : List Event) (u : Json) : Nat :=
  (evs.filter (isUserCallFor u)).length

/-- Is this event a maniphest.search (page) network request? -/
def isTasksCall : Event → Bool
  | Event.call (NetCall.tasksCall _) => true
  | _ => false

/-- How many maniphest.search requests the trace holds. -/
def countTasksCalls (evs : List Event) : Nat :=
  (evs.filter isTasksCall).length

/-- Is this event a flush of the cache queue? -/
def isFlush : Event → Bool
  | Event.flush _ => true
  | _ => false

/-- Is this event a task yielded to the consumer? -/
def isYield : Event → Bool
  | Event.yieldTask _ => true
  | _ => false

/-- The payloads pushed onto the cache queue by a trace, in order. -/
def pushesOf : List Event → List Json
  | [] => []
  | Event.push r :: evs => r :: pushesOf evs
  | _ :: evs => pushesOf evs

theorem countUserCalls_append (a b : List Event) (u : Json) :
    countUserCalls (a ++ b) u = countUserCalls a u + countUserCalls b u := by
  simp [countUserCalls, List.filter_append]

theorem countTasksCalls_append (a b : List Event) :
    countTasksCalls (a ++ b) = countTasksCalls a + countTasksCalls b := by
  simp [countTasksCalls, List.filter_append]

theorem pushesOf_append (a b : List Event) :
    pushesOf (a ++ b) = pushesOf a ++ pushesOf b := by
  induction a with
  | nil => rfl
  | cons e t ih => cases e <;> simp [pushesOf, ih]

/-
Hoare-style predicates over pipeline computations, closed under `mbind`.
-/

/-- Every event the computation can emit satisfies `p`. -/
def evAll {α : Type} (p : Event → Bool) (m : M α) : Prop :=
  ∀ s : St, ((m s).2.2).all p = true

/-- Running `mbind m f` when `m` succeeds. -/
theorem mbind_ok {α β : Type} {m : M α} {f : α → M β} {s s1 : St}
    {ev1 : List Event} {a : α} (hms : m s = (Except.ok a, s1, ev1)) :
    mbind m f s = ((f a s1).1, (f a s1).2.1, ev1 ++ (f a s1).2.2) := by
  unfold mbind
  rw [hms]

/-- Running `mbind m f` when `m` raises. -/
theorem mbind_err {α β : Type} {m : M α} {f : α → M β} {s s1 : St}
    {ev1 : List Event} {e : PyErr} (hms : m s = (Except.error e, s1, ev1)) :
    mbind m f s = (Except.error e, s1, ev1) := by
  unfold mbind
  rw [hms]

theorem evAll_mbind {α β : Type} {p : Event → Bool} {m : M α} {f : α → M β}
    (hm : evAll p m) (hf : ∀ a, evAll p (f a)) : evAll p (mbind m f) := by
  intro s
  have h1 := hm s
  show ((mbind m f s).2.2).all p = true
  rcases hms : m s with ⟨r, s1, ev1⟩
  rw [hms] at h1
  simp only at h1
  cases r with
  | error e =>
    rw [mbind_err hms]
    exact h1
  | ok a =>
    have h2 := hf a s1
    rw [mbind_ok hms]
    simp only
    simp [List.all_append, h1, h2]

theorem evAll_mret {α : Type} (p : Event → Bool) (a : α) : evAll p (mret a) := by
  intro s; simp [mret]

theorem evAll_mthrow {α : Type} (p : Event → Bool) (e : PyErr) :
    evAll p (mthrow e : M α) := by
  intro s; simp [mthrow]

theorem evAll_mofExcept {α : Type} (p : Event → Bool) (r : Except PyErr α) :
    evAll p (mofExcept r) := by
  intro s; simp [mofExcept]

theorem evAll_mofOption {α : Type} (p : Event → Bool) (o : Option α)
    (e : PyErr) : evAll p (mofOption o e) := by
  cases o with
  | none => exact evAll_mthrow p e
  | some a => exact evAll_mret p a

theorem evAll_emit {p : Event → Bool} {e : Event} (h : p e = true) :
    evAll p (emit e) := by
  intro s; simp [emit, h]

theorem evAll_getUsers (p : Event → Bool) : evAll p getUsers := by
  intro s; simp [getUsers]

theorem evAll_storeUser (p : Event → Bool) (k v : Json) :
    evAll p (storeUser k v) := by
  intro s; simp [storeUser]

theorem evAll_push {p : Event → Bool} (r : Json)
    (h : p (Event.push r) = true) : evAll p (Phabricator.push_cache_queue r) := by
  intro s; simp [Phabricator.push_cache_queue, h]

/-- Queue tracking: the computation only appends to the cache queue, and what
it appends is exactly what it pushes (no flush, no purge inside). -/
def qtrack {α : Type} (m : M α) : Prop :=
  ∀ s : St, ((m s).2.1).queue = s.queue ++ pushesOf ((m s).2.2)

theorem qtrack_mbind {α β : Type} {m : M α} {f : α → M β}
    (hm : qtrack m) (hf : ∀ a, qtrack (f a)) : qtrack (mbind m f) := by
  intro s
  have h1 := hm s
  show ((mbind m f s).2.1).queue = s.queue ++ pushesOf ((mbind m f s).2.2)
  rcases hms : m s with ⟨r, s1, ev1⟩
  rw [hms] at h1
  simp only at h1
  cases r with
  | error e =>
    rw [mbind_err hms]
    exact h1
  | ok a =>
    have h2 := hf a s1
    rw [mbind_ok hms]
    simp only
    simp [pushesOf_append, h1, h2, List.append_assoc]

theorem qtrack_mret {α : Type} (a : α) : qtrack (mret a) := by
  intro s; simp [mret, pushesOf]

theorem qtrack_mthrow {α : Type} (e : PyErr) : qtrack (mthrow e : M α) := by
  intro s; simp [mthrow, pushesOf]

theorem qtrack_mofExcept {α : Type} (r : Except PyErr α) :
    qtrack (mofExcept r) := by
  intro s; simp [mofExcept, pushesOf]

theorem qtrack_mofOption {α : Type} (o : Option α) (e : PyErr) :
    qtrack (mofOption o e) := by
  cases o with
  | none => exact qtrack_mthrow e
  | some a => exact qtrack_mret a

theorem qtrack_emit (e : Event) (h : ∀ r, e ≠ Event.push r) :
    qtrack (emit e) := by
  intro s
  cases e with
  | push r => exact absurd rfl (h r)
  | call c => simp [emit, pushesOf]
  | flush l => simp [emit, pushesOf]
  | purge l => simp [emit, pushesOf]
  | yieldTask t => simp [emit, pushesOf]

theorem qtrack_getUsers : qtrack getUsers := by
  intro s; simp [getUsers, pushesOf]

theorem qtrack_storeUser (k v : Json) : qtrack (storeUser k v) := by
  intro s; simp [storeUser, pushesOf]

theorem qtrack_push (r : Json) : qtrack (Phabricator.push_cache_queue r) := by
  intro s; simp [Phabricator.push_cache_queue, pushesOf]

/-
Run equations for the pipeline functions.
-/

theorem conduitM_run (c : NetCall) (r : HttpResult) (s : St) :
    conduitM c r s = (ConduitClient.callResult r, s, [Event.call c]) := rfl

theorem fetch_and_parse_users_err (srv : Server) (ids : List Json) (s : St)
    (e : PyErr) (hc : ConduitClient.callResult (srv.users ids) = Except.error e) :
    Phabricator.fetch_and_parse_users srv ids s =
      (Except.error e, s, [Event.call (NetCall.usersCall ids)]) := by
  have h1 : conduitM (NetCall.usersCall ids) (srv.users ids) s =
      (Except.error e, s, [Event.call (NetCall.usersCall ids)]) := by
    rw [conduitM_run, hc]
  unfold Phabricator.fetch_and_parse_users
  rw [mbind_err h1]

theorem fetch_and_parse_users_ok (srv : Server) (ids : List Json) (s : St)
    (raw : Json) (hc : ConduitClient.callResult (srv.users ids) = Except.ok raw) :
    Phabricator.fetch_and_parse_users srv ids s =
      (Phabricator.parse_users raw, St.mk s.users (s.queue ++ [raw]),
       [Event.call (NetCall.usersCall ids), Event.push raw]) := by
  have h1 : conduitM (NetCall.usersCall ids) (srv.users ids) s =
      (Except.ok raw, s, [Event.call (NetCall.usersCall ids)]) := by
    rw [conduitM_run, hc]
  unfold Phabricator.fetch_and_parse_users
  rw [mbind_ok h1]
  rfl

theorem get_or_fetch_user_hit (srv : Server) (u : Json) (s : St) (v : Json)
    (h : alistGet s.users u = some v) :
    Phabricator.get_or_fetch_user srv u s = (Except.ok v, s, []) := by
  unfold Phabricator.get_or_fetch_user
  rw [mbind_ok (show getUsers s = (Except.ok s.users, s, []) from rfl)]
  simp [h, mret]

theorem get_or_fetch_user_miss_callErr (srv : Server) (u : Json) (s : St)
    (e : PyErr) (h : alistGet s.users u = none)
    (hc : ConduitClient.callResult (srv.users [u]) = Except.error e) :
    Phabricator.get_or_fetch_user srv u s =
      (Except.error e, s, [Event.call (NetCall.usersCall [u])]) := by
  unfold Phabricator.get_or_fetch_user
  rw [mbind_ok (show getUsers s = (Except.ok s.users, s, []) from rfl)]
  simp only [h]
  rw [mbind_err (fetch_and_parse_users_err srv [u] s e hc)]
  rfl

theorem get_or_fetch_user_miss_parseErr (srv : Server) (u : Json) (s : St)
    (raw : Json) (e : PyErr) (h : alistGet s.users u = none)
    (hc : ConduitClient.callResult (srv.users [u]) = Except.ok raw)
    (hp : Phabricator.parse_users raw = Except.error e) :
    Phabricator.get_or_fetch_user srv u s =
      (Except.error e, St.mk s.users (s.queue ++ [raw]),
       [Event.call (NetCall.usersCall [u]), Event.push raw]) := by
  have h2 : Phabricator.fetch_and_parse_users srv [u] s =
      (Except.error e, St.mk s.users (s.queue ++ [raw]),
       [Event.call (NetCall.usersCall [u]), Event.push raw]) := by
    rw [fetch_and_parse_users_ok srv [u] s raw hc, hp]
  unfold Phabricator.get_or_fetch_user
  rw [mbind_ok (show getUsers s = (Except.ok s.users, s, []) from rfl)]
  simp only [h]
  rw [mbind_err h2]
  rfl

theorem get_or_fetch_user_miss_emptyRes (srv : Server) (u : Json) (s : St)
    (raw : Json) (h : alistGet s.users u = none)
    (hc : ConduitClient.callResult (srv.users [u]) = Except.ok raw)
    (hp : Phabricator.parse_users raw = Except.ok []) :
    Phabricator.get_or_fetch_user srv u s =
      (Except.error PyErr.indexError, St.mk s.users (s.queue ++ [raw]),
       [Event.call (NetCall.usersCall [u]), Event.push raw]) := by
  have h2 : Phabricator.fetch_and_parse_users srv [u] s =
      (Except.ok [], St.mk s.users (s.queue ++ [raw]),
       [Event.call (NetCall.usersCall [u]), Event.push raw]) := by
    rw [fetch_and_parse_users_ok srv [u] s raw hc, hp]
  unfold Phabricator.get_or_fetch_user
  rw [mbind_ok (show getUsers s = (Except.ok s.users, s, []) from rfl)]
  simp only [h]
  rw [mbind_ok h2]
  simp [mthrow]

theorem get_or_fetch_user_miss_found (srv : Server) (u : Json) (s : St)
    (raw v : Json) (rest : List Json) (h : alistGet s.users u = none)
    (hc : ConduitClient.callResult (srv.users [u]) = Except.ok raw)
    (hp : Phabricator.parse_users raw = Except.ok (v :: rest)) :
    Phabricator.get_or_fetch_user srv u s =
      (Except.ok v, St.mk (alistSet s.users u v) (s.queue ++ [raw]),
       [Event.call (NetCall.usersCall [u]), Event.push raw]) := by
  have h2 : Phabricator.fetch_and_parse_users srv [u] s =
      (Except.ok (v :: rest), St.mk s.users (s.queue ++ [raw]),
       [Event.call (NetCall.usersCall [u]), Event.push raw]) := by
    rw [fetch_and_parse_users_ok srv [u] s raw hc, hp]
  unfold Phabricator.get_or_fetch_user
  rw [mbind_ok (show getUsers s = (Except.ok s.users, s, []) from rfl)]
  simp only [h]
  rw [mbind_ok h2]
  simp [mbind, storeUser, mret]

/-
The per-identifier network-lookup bound (ucb): at most one user.query
request per identifier not yet cached, none for a cached identifier; a
lookup that completed successfully leaves the identifier cached; the cache
only grows.
-/

/-- Is `u` a key of the `_users` memoization dict? -/
def hasUser (users : List (Json × Json)) (u : Json) : Bool :=
  (alistGet users u).isSome

/-- The user-call bound, as a predicate on pipeline computations. -/
def ucb {α : Type} (m : M α) : Prop :=
  ∀ (s : St) (u : Json),
    (countUserCalls ((m s).2.2) u ≤ if hasUser s.users u then 0 else 1) ∧
    (∀ a : α, (m s).1 = Except.ok a → 1 ≤ countUserCalls ((m s).2.2) u →
      hasUser ((m s).2.1).users u = true) ∧
    (∀ v : Json, hasUser s.users v = true → hasUser ((m s).2.1).users v = true)

theorem ucb_mbind {α β : Type} {m : M α} {f : α → M β}
    (hm : ucb m) (hf : ∀ a, ucb (f a)) : ucb (mbind m f) := by
  intro s u
  obtain ⟨hb, ho, hmono⟩ := hm s u
  have hmonoAll : ∀ v : Json, hasUser s.users v = true →
      hasUser ((m s).2.1).users v = true := hmono
  rcases hms : m s with ⟨r, s1, ev1⟩
  rw [hms] at hb ho hmonoAll
  simp only at hb ho hmonoAll
  cases r with
  | error e =>
    refine ⟨?_, ?_, ?_⟩ <;> simp only [mbind_err hms]
    · exact hb
    · intro a hcontr
      exact absurd hcontr (by simp)
    · exact hmonoAll
  | ok a =>
    obtain ⟨hb2, ho2, hmono2⟩ := hf a s1 u
    have hmono2All : ∀ v : Json, hasUser s1.users v = true →
        hasUser ((f a s1).2.1).users v = true := hmono2
    rcases hfs : f a s1 with ⟨r2, s2, ev2⟩
    rw [hfs] at hb2 ho2 hmono2All
    simp only at hb2 ho2 hmono2All
    have hrun : mbind m f s = (r2, s2, ev1 ++ ev2) := by
      rw [mbind_ok hms, hfs]
    refine ⟨?_, ?_, ?_⟩ <;> simp only [hrun]
    · rw [countUserCalls_append]
      by_cases hcu : hasUser s.users u = true
      · have h1 : countUserCalls ev1 u = 0 := by
          have := hb
          rw [if_pos hcu] at this
          omega
        have hcu1 : hasUser s1.users u = true := hmonoAll u hcu
        have h2 : countUserCalls ev2 u = 0 := by
          have := hb2
          rw [if_pos hcu1] at this
          omega
        rw [if_pos hcu]
        omega
      · rw [if_neg hcu]
        rw [if_neg hcu] at hb
        rcases Nat.eq_zero_or_pos (countUserCalls ev1 u) with h0 | h1
        · have h2 : countUserCalls ev2 u ≤ 1 := by
            rcases Bool.eq_false_or_eq_true (hasUser s1.users u) with hh | hh
            · rw [hh] at hb2
              simp at hb2
              omega
            · rw [hh] at hb2
              simp at hb2
              omega
          omega
        · have hcache1 : hasUser s1.users u = true := ho a rfl h1
          have h2 : countUserCalls ev2 u = 0 := by
            have := hb2
            rw [if_pos hcache1] at this
            omega
          omega
    · intro b hbeq hcnt
      rw [countUserCalls_append] at hcnt
      rcases Nat.eq_zero_or_pos (countUserCalls ev2 u) with h0 | h2
      · have h1 : 1 ≤ countUserCalls ev1 u := by omega
        have hcache1 : hasUser s1.users u = true := ho a rfl h1
        exact hmono2All u hcache1
      · exact ho2 b hbeq h2
    · intro v hv
      exact hmono2All v (hmonoAll v hv)

theorem ucb_noUserEffect {α : Type} {m : M α}
    (h : ∀ s : St, ((m s).2.1).users = s.users ∧
      ∀ u : Json, countUserCalls ((m s).2.2) u = 0) : ucb m := by
  intro s u
  obtain ⟨hst, hev⟩ := h s
  refine ⟨?_, ?_, ?_⟩
  · rw [hev u]
    omega
  · intro a hok hcnt
    rw [hev u] at hcnt
    omega
  · intro v hv
    rw [hst]
    exact hv

theorem ucb_mret {α : Type} (a : α) : ucb (mret a) := by
  apply ucb_noUserEffect
  intro s
  exact ⟨rfl, fun u => rfl⟩

theorem ucb_mthrow {α : Type} (e : PyErr) : ucb (mthrow e : M α) := by
  apply ucb_noUserEffect
  intro s
  exact ⟨rfl, fun u => rfl⟩

theorem ucb_mofExcept {α : Type} (r : Except PyErr α) : ucb (mofExcept r) := by
  apply ucb_noUserEffect
  intro s
  exact ⟨rfl, fun u => rfl⟩

theorem ucb_mofOption {α : Type} (o : Option α) (e : PyErr) :
    ucb (mofOption o e) := by
  cases o with
  | none => exact ucb_mthrow e
  | some a => exact ucb_mret a

theorem ucb_push (r : Json) : ucb (Phabricator.push_cache_queue r) := by
  apply ucb_noUserEffect
  intro s
  exact ⟨rfl, fun u => rfl⟩

theorem ucb_flush : ucb Phabricator.flush_cache_queue := by
  apply ucb_noUserEffect
  intro s
  exact ⟨rfl, fun u => rfl⟩

theorem ucb_purge : ucb Phabricator.purge_cache_queue := by
  apply ucb_noUserEffect
  intro s
  exact ⟨rfl, fun u => rfl⟩

theorem ucb_emitNonUser (e : Event) (h : ∀ u, isUserCallFor u e = false) :
    ucb (emit e) := by
  apply ucb_noUserEffect
  intro s
  refine ⟨rfl, fun u => ?_⟩
  simp [emit, countUserCalls, h u]

theorem ucb_get_or_fetch_user (srv : Server) (uid : Json) :
    ucb (Phabricator.get_or_fetch_user srv uid) := by
  intro s u
  have hcnt1 : countUserCalls [Event.call (NetCall.usersCall [uid])] u =
      if uid = u then 1 else 0 := by
    by_cases hu : uid = u <;>
      simp [countUserCalls, isUserCallFor, listElemJ, hu]
  have hcnt2 : ∀ raw : Json,
      countUserCalls [Event.call (NetCall.usersCall [uid]), Event.push raw] u =
        if uid = u then 1 else 0 := by
    intro raw
    by_cases hu : uid = u <;>
      simp [countUserCalls, isUserCallFor, listElemJ, hu]
  rcases hcache : alistGet s.users uid with _ | v
  · have hmiss : hasUser s.users uid = false := by
      simp [hasUser, hcache]
    have hbound : (if uid = u then 1 else 0) ≤
        if hasUser s.users u then 0 else 1 := by
      by_cases hu : uid = u
      · subst hu
        rw [if_pos rfl, hmiss]
        simp
      · rw [if_neg hu]
        omega
    rcases hc : ConduitClient.callResult (srv.users [uid]) with e | raw
    · rw [get_or_fetch_user_miss_callErr srv uid s e hcache hc]
      refine ⟨?_, ?_, ?_⟩ <;> simp only
      · rw [hcnt1]
        exact hbound
      · intro a hcontr
        exact absurd hcontr (by simp)
      · intro v hv
        exact hv
    · rcases hp : Phabricator.parse_users raw with e | us
      · rw [get_or_fetch_user_miss_parseErr srv uid s raw e hcache hc hp]
        refine ⟨?_, ?_, ?_⟩ <;> simp only
        · rw [hcnt2 raw]
          exact hbound
        · intro a hcontr
          exact absurd hcontr (by simp)
        · intro v hv
          exact hv
      · cases us with
        | nil =>
          rw [get_or_fetch_user_miss_emptyRes srv uid s raw hcache hc hp]
          refine ⟨?_, ?_, ?_⟩ <;> simp only
          · rw [hcnt2 raw]
            exact hbound
          · intro a hcontr
            exact absurd hcontr (by simp)
          · intro v hv
            exact hv
        | cons v1 rest =>
          rw [get_or_fetch_user_miss_found srv uid s raw v1 rest hcache hc hp]
          refine ⟨?_, ?_, ?_⟩ <;> simp only
          · rw [hcnt2 raw]
            exact hbound
          · intro a hok hcnt
            simp only [hasUser]
            by_cases hu : uid = u
            · subst hu
              rw [alistGet_set_eq]
              rfl
            · rw [hcnt2 raw, if_neg hu] at hcnt
              omega
          · intro v hv
            simp only [hasUser] at hv ⊢
            rw [alistGet_set_isSome]
            right
            exact hv
  · rw [get_or_fetch_user_hit srv uid s v hcache]
    refine ⟨?_, ?_, ?_⟩ <;> simp only
    · simp [countUserCalls]
    · intro a hok hcnt
      simp [countUserCalls] at hcnt
    · intro v1 hv1
      exact hv1

theorem ucb_conduitM (c : NetCall) (r : HttpResult)
    (h : ∀ u, isUserCallFor u (Event.call c) = false) : ucb (conduitM c r) := by
  apply ucb_noUserEffect
  intro s
  rw [conduitM_run]
  refine ⟨rfl, fun u => ?_⟩
  simp [countUserCalls, h u]

theorem ucb_enrichTransaction (srv : Server) (tt : Json) :
    ucb (enrichTransaction srv tt) := by
  unfold enrichTransaction
  apply ucb_mbind (ucb_mofOption _ _)
  intro author_id
  apply ucb_mbind (ucb_get_or_fetch_user srv author_id)
  intro author
  exact ucb_mofOption _ _

theorem ucb_enrichTransList (srv : Server) (tts : List Json) :
    ucb (enrichTransList srv tts) := by
  induction tts with
  | nil => exact ucb_mret []
  | cons tt rest ih =>
    unfold enrichTransList
    apply ucb_mbind (ucb_enrichTransaction srv tt)
    intro tt1
    apply ucb_mbind ih
    intro rest1
    exact ucb_mret _

theorem ucb_enrichTransValue (srv : Server) (v : Json) :
    ucb (enrichTransValue srv v) := by
  unfold enrichTransValue
  cases hi : pyIter v with
  | none => exact ucb_mthrow _
  | some elems =>
    apply ucb_mbind (ucb_enrichTransList srv elems)
    intro elems1
    cases v <;> exact ucb_mret _

theorem ucb_enrichTransMap (srv : Server) (kvs : List (String × Json)) :
    ucb (enrichTransMap srv kvs) := by
  induction kvs with
  | nil => exact ucb_mret []
  | cons kv rest ih =>
    obtain ⟨k, v⟩ := kv
    unfold enrichTransMap
    apply ucb_mbind (ucb_enrichTransValue srv v)
    intro v1
    apply ucb_mbind ih
    intro rest1
    exact ucb_mret _

theorem ucb_fetch_and_parse_tasks_transactions (srv : Server)
    (ids : List Json) : ucb (Phabricator.fetch_and_parse_tasks_transactions srv ids) := by
  unfold Phabricator.fetch_and_parse_tasks_transactions
  apply ucb_mbind
    (ucb_conduitM (NetCall.transCall ids) (srv.transactions ids) (fun u => rfl))
  intro raw
  apply ucb_mbind (ucb_push raw)
  intro u1
  apply ucb_mbind (ucb_mofExcept _)
  intro res
  cases res with
  | obj kvs =>
    apply ucb_mbind (ucb_enrichTransMap srv kvs)
    intro kvs1
    exact ucb_mret _
  | null => exact ucb_mthrow _
  | bool b => exact ucb_mthrow _
  | num n => exact ucb_mthrow _
  | str s1 => exact ucb_mthrow _
  | arr xs => exact ucb_mthrow _

theorem ucb_processTask (srv : Server) (tasks_trans task : Json) :
    ucb (processTask srv tasks_trans task) := by
  unfold processTask
  apply ucb_mbind (ucb_mofOption _ _)
  intro i
  apply ucb_mbind (ucb_mofOption _ _)
  intro fields
  apply ucb_mbind (ucb_mofOption _ _)
  intro author_id
  apply ucb_mbind (ucb_mofOption _ _)
  intro owner_id
  apply ucb_mbind (ucb_get_or_fetch_user srv author_id)
  intro author
  apply ucb_mbind (ucb_get_or_fetch_user srv owner_id)
  intro owner
  apply ucb_mbind (ucb_mofOption _ _)
  intro trans
  apply ucb_mbind (ucb_mofOption _ _)
  intro task2
  exact ucb_emitNonUser _ (fun u => rfl)

theorem ucb_processTasks (srv : Server) (tasks_trans : Json)
    (tasks : List Json) : ucb (processTasks srv tasks_trans tasks) := by
  induction tasks with
  | nil => exact ucb_mret ()
  | cons t rest ih =>
    unfold processTasks
    apply ucb_mbind (ucb_processTask srv tasks_trans t)
    intro u1
    exact ih

theorem ucb_processPage (srv : Server) (after : Option Json) :
    ucb (processPage srv after) := by
  unfold processPage
  apply ucb_mbind
    (ucb_conduitM (NetCall.tasksCall after) (srv.tasksAt after) (fun u => rfl))
  intro raw
  apply ucb_mbind (ucb_push raw)
  intro u1
  apply ucb_mbind (ucb_mofExcept _)
  intro tasks
  by_cases ht : tasks = []
  · rw [if_pos ht]
    exact ucb_mret _
  · rw [if_neg ht]
    apply ucb_mbind (ucb_mofExcept _)
    intro tasks_ids
    apply ucb_mbind (ucb_fetch_and_parse_tasks_transactions srv tasks_ids)
    intro tasks_trans
    apply ucb_mbind (ucb_processTasks srv tasks_trans tasks)
    intro u2
    apply ucb_mbind ucb_flush
    intro u3
    exact ucb_mofExcept _

theorem ucb_fetchPages (srv : Server) (fuel : Nat) (after : Option Json) :
    ucb (fetchPages srv fuel after) := by
  induction fuel generalizing after with
  | zero => exact ucb_mret _
  | succ n ih =>
    unfold fetchPages
    apply ucb_mbind (ucb_processPage srv after)
    intro po
    cases po with
    | emptyPage => exact ucb_mret _
    | lastPage => exact ucb_mret _
    | nextCursor a => exact ih (some a)

theorem ucb_fetch (srv : Server) (fuel : Nat) :
    ucb (Phabricator.fetch srv fuel) := by
  unfold Phabricator.fetch
  apply ucb_mbind ucb_purge
  intro u1
  exact ucb_fetchPages srv fuel none

/-- Claim C2: over one whole fetch run, at most one user.query network
request is issued per distinct user identifier (none at all for an
identifier already cached in `_users`), no matter how many tasks and
transactions reference it; and a cache hit returns the stored record with no
network request, no state change and no event at all. -/
theorem identity_resolver_memoization_bound :
    (∀ (srv : Server) (fuel : Nat) (s : St) (u : Json),
      countUserCalls (runEv (Phabricator.fetch srv fuel) s) u ≤
        if hasUser s.users u then 0 else 1) ∧
    (∀ (srv : Server) (u : Json) (s : St) (v : Json),
      alistGet s.users u = some v →
        Phabricator.get_or_fetch_user srv u s = (Except.ok v, s, [])) := by
  constructor
  · intro srv fuel s u
    exact (ucb_fetch srv fuel s u).1
  · intro srv u s v h
    exact get_or_fetch_user_hit srv u s v h

theorem callResult_failure (status : Nat) :
    ConduitClient.callResult (HttpResult.failure status) =
      Except.error (PyErr.http status) := rfl

theorem callResult_noCode {body : Json}
    (hec : body.getItem "error_code" = none) :
    ConduitClient.callResult (HttpResult.success body) =
      Except.error (PyErr.keyError "error_code") := by
  simp only [ConduitClient.callResult]
  rw [hec]

theorem callResult_errTruthy {body c i : Json}
    (hec : body.getItem "error_code" = some c) (htr : jsonTruthy c = true)
    (hinfo : body.getItem "error_info" = some i) :
    ConduitClient.callResult (HttpResult.success body) =
      Except.error (PyErr.conduit i c) := by
  simp only [ConduitClient.callResult]
  rw [hec]
  simp [htr, hinfo]

theorem callResult_errNoInfo {body c : Json}
    (hec : body.getItem "error_code" = some c) (htr : jsonTruthy c = true)
    (hinfo : body.getItem "error_info" = none) :
    ConduitClient.callResult (HttpResult.success body) =
      Except.error (PyErr.keyError "error_info") := by
  simp only [ConduitClient.callResult]
  rw [hec]
  simp [htr, hinfo]

theorem callResult_okFalsy {body c : Json}
    (hec : body.getItem "error_code" = some c) (htr : jsonTruthy c = false) :
    ConduitClient.callResult (HttpResult.success body) = Except.ok body := by
  simp only [ConduitClient.callResult]
  rw [hec]
  simp [htr]

/-- Claim C6: ConduitClient._call raises ConduitError carrying exactly the
server-supplied code and message precisely when the decoded envelope's
error_code field is present and truthy (non-zero, non-null, non-empty);
it raises a transport-level error exactly when the HTTP exchange fails; and
otherwise it returns the raw response body unmodified - the body is
inspected only for error_code (and, on failure, error_info), never
transformed. -/
theorem conduit_call_error_contract :
    (∀ status : Nat,
      ConduitClient.callResult (HttpResult.failure status) =
        Except.error (PyErr.http status)) ∧
    (∀ body info code : Json,
      ConduitClient.callResult (HttpResult.success body) =
          Except.error (PyErr.conduit info code) ↔
        body.getItem "error_code" = some code ∧ jsonTruthy code = true ∧
          body.getItem "error_info" = some info) ∧
    (∀ body x : Json,
      ConduitClient.callResult (HttpResult.success body) = Except.ok x ↔
        x = body ∧ ∃ code : Json, body.getItem "error_code" = some code ∧
          jsonTruthy code = false) := by
  refine ⟨fun status => rfl, ?_, ?_⟩
  · intro body info code
    constructor
    · intro h
      cases hec : body.getItem "error_code" with
      | none =>
        rw [callResult_noCode hec] at h
        simp at h
      | some c =>
        rcases Bool.eq_false_or_eq_true (jsonTruthy c) with htr | htr
        · cases hinfo : body.getItem "error_info" with
          | none =>
            rw [callResult_errNoInfo hec htr hinfo] at h
            simp at h
          | some i =>
            rw [callResult_errTruthy hec htr hinfo] at h
            injection h with h3
            injection h3 with h4 h5
            subst h4
            subst h5
            exact ⟨rfl, htr, rfl⟩
        · rw [callResult_okFalsy hec htr] at h
          simp at h
    · rintro ⟨hec, htr, hinfo⟩
      exact callResult_errTruthy hec htr hinfo
  · intro body x
    constructor
    · intro h
      cases hec : body.getItem "error_code" with
      | none =>
        rw [callResult_noCode hec] at h
        simp at h
      | some c =>
        rcases Bool.eq_false_or_eq_true (jsonTruthy c) with htr | htr
        · cases hinfo : body.getItem "error_info" with
          | none =>
            rw [callResult_errNoInfo hec htr hinfo] at h
            simp at h
          | some i =>
            rw [callResult_errTruthy hec htr hinfo] at h
            simp at h
        · rw [callResult_okFalsy hec htr] at h
          injection h with h2
          exact ⟨h2.symm, c, rfl, htr⟩
    · rintro ⟨hx, code, hec, htr⟩
      subst hx
      exact callResult_okFalsy hec htr

/-- Claim C10: on a cache miss, the identity resolver takes element [0] of
the parsed user.query result; when the (successful, error_code-falsy)
response carries an empty result array, resolution fails with IndexError -
a plain indexing exception, not one of the typed Conduit errors - after
having issued the network request and pushed the raw response. -/
theorem user_lookup_empty_result_index_error (srv : Server) (u : Json)
    (s : St) (raw : Json) (h : alistGet s.users u = none)
    (hc : ConduitClient.callResult (srv.users [u]) = Except.ok raw)
    (hp : Phabricator.parse_users raw = Except.ok []) :
    Phabricator.get_or_fetch_user srv u s =
      (Except.error PyErr.indexError, St.mk s.users (s.queue ++ [raw]),
       [Event.call (NetCall.usersCall [u]), Event.push raw]) :=
  get_or_fetch_user_miss_emptyRes srv u s raw h hc hp

/-- A successful Conduit envelope around a result payload (error_code 0). -/
def okEnvelope (result : Json) : Json :=
  Json.obj [("error_code", Json.num 0), ("error_info", Json.null),
            ("result", result)]

/-- A server whose user.query endpoint answers with an empty result array
(the looked-up identifier is unknown to it). -/
def serverEmptyUsers : Server where
  tasksAt := fun _ => HttpResult.failure 500
  transactions := fun _ => HttpResult.failure 500
  users := fun _ => HttpResult.success (okEnvelope (Json.arr []))

/-- Witness for claim C10 at a concrete input: a lookup of "U-unknown" on a
fresh instance against a server answering with an empty user list raises
IndexError. -/
theorem user_lookup_empty_result_index_error_witness :
    Phabricator.get_or_fetch_user serverEmptyUsers (Json.str "U-unknown")
        initSt =
      (Except.error PyErr.indexError,
       St.mk [] [okEnvelope (Json.arr [])],
       [Event.call (NetCall.usersCall [Json.str "U-unknown"]),
        Event.push (okEnvelope (Json.arr []))]) :=
  user_lookup_empty_result_index_error serverEmptyUsers (Json.str "U-unknown")
    initSt (okEnvelope (Json.arr [])) rfl rfl rfl

/-
Run equations for one page of the fetch loop.
-/

theorem processPage_callErr (srv : Server) (a : Option Json) (s : St)
    (e : PyErr) (hc : ConduitClient.callResult (srv.tasksAt a) = Except.error e) :
    processPage srv a s = (Except.error e, s, [Event.call (NetCall.tasksCall a)]) := by
  unfold processPage
  rw [mbind_err (show conduitM (NetCall.tasksCall a) (srv.tasksAt a) s =
    (Except.error e, s, [Event.call (NetCall.tasksCall a)]) by
      rw [conduitM_run, hc])]

theorem processPage_parseErr (srv : Server) (a : Option Json) (s : St)
    (raw : Json) (e : PyErr)
    (hc : ConduitClient.callResult (srv.tasksAt a) = Except.ok raw)
    (hp : Phabricator.parse_tasks raw = Except.error e) :
    processPage srv a s =
      (Except.error e, St.mk s.users (s.queue ++ [raw]),
       [Event.call (NetCall.tasksCall a), Event.push raw]) := by
  unfold processPage
  rw [mbind_ok (show conduitM (NetCall.tasksCall a) (srv.tasksAt a) s =
    (Except.ok raw, s, [Event.call (NetCall.tasksCall a)]) by
      rw [conduitM_run, hc])]
  rw [mbind_ok (show Phabricator.push_cache_queue raw s =
    (Except.ok (), St.mk s.users (s.queue ++ [raw]), [Event.push raw]) from rfl)]
  rw [mbind_err (show mofExcept (Phabricator.parse_tasks raw)
      (St.mk s.users (s.queue ++ [raw])) =
    (Except.error e, St.mk s.users (s.queue ++ [raw]), []) by
      rw [mofExcept, hp])]
  simp

theorem processPage_empty (srv : Server) (a : Option Json) (s : St)
    (raw : Json)
    (hc : ConduitClient.callResult (srv.tasksAt a) = Except.ok raw)
    (hp : Phabricator.parse_tasks raw = Except.ok []) :
    processPage srv a s =
      (Except.ok PageOutcome.emptyPage, St.mk s.users (s.queue ++ [raw]),
       [Event.call (NetCall.tasksCall a), Event.push raw]) := by
  unfold processPage
  rw [mbind_ok (show conduitM (NetCall.tasksCall a) (srv.tasksAt a) s =
    (Except.ok raw, s, [Event.call (NetCall.tasksCall a)]) by
      rw [conduitM_run, hc])]
  rw [mbind_ok (show Phabricator.push_cache_queue raw s =
    (Except.ok (), St.mk s.users (s.queue ++ [raw]), [Event.push raw]) from rfl)]
  rw [mbind_ok (show mofExcept (Phabricator.parse_tasks raw)
      (St.mk s.users (s.queue ++ [raw])) =
    (Except.ok ([] : List Json), St.mk s.users (s.queue ++ [raw]), []) by
      rw [mofExcept, hp])]
  simp [mret]

/-- The part of one page's processing that follows a successful call, push,
non-empty parse and id extraction: transactions, per-task enrichment and
yield, flush, cursor examination. -/
def pageTail (srv : Server) (raw : Json) (tasks ids : List Json) :
    M PageOutcome :=
  mbind (Phabricator.fetch_and_parse_tasks_transactions srv ids)
    (fun tasks_trans =>
  mbind (processTasks srv tasks_trans tasks) (fun _ =>
  mbind Phabricator.flush_cache_queue (fun _ => mofExcept (pageNext raw))))

theorem processPage_nonempty (srv : Server) (a : Option Json) (s : St)
    (raw : Json) (tasks ids : List Json)
    (hc : ConduitClient.callResult (srv.tasksAt a) = Except.ok raw)
    (hp : Phabricator.parse_tasks raw = Except.ok tasks)
    (hne : ¬tasks = []) (hid : extractIds tasks = Except.ok ids) :
    processPage srv a s =
      ((pageTail srv raw tasks ids (St.mk s.users (s.queue ++ [raw]))).1,
       (pageTail srv raw tasks ids (St.mk s.users (s.queue ++ [raw]))).2.1,
       [Event.call (NetCall.tasksCall a), Event.push raw] ++
         (pageTail srv raw tasks ids (St.mk s.users (s.queue ++ [raw]))).2.2) := by
  unfold processPage
  rw [mbind_ok (show conduitM (NetCall.tasksCall a) (srv.tasksAt a) s =
    (Except.ok raw, s, [Event.call (NetCall.tasksCall a)]) by
      rw [conduitM_run, hc])]
  rw [mbind_ok (show Phabricator.push_cache_queue raw s =
    (Except.ok (), St.mk s.users (s.queue ++ [raw]), [Event.push raw]) from rfl)]
  rw [mbind_ok (show mofExcept (Phabricator.parse_tasks raw)
      (St.mk s.users (s.queue ++ [raw])) =
    (Except.ok tasks, St.mk s.users (s.queue ++ [raw]), []) by
      rw [mofExcept, hp])]
  rw [if_neg hne]
  rw [mbind_ok (show mofExcept (extractIds tasks)
      (St.mk s.users (s.queue ++ [raw])) =
    (Except.ok ids, St.mk s.users (s.queue ++ [raw]), []) by
      rw [mofExcept, hid])]
  rw [pageTail]
  simp

theorem fptt_callErr (srv : Server) (ids : List Json) (s : St) (e : PyErr)
    (ht : ConduitClient.callResult (srv.transactions ids) = Except.error e) :
    Phabricator.fetch_and_parse_tasks_transactions srv ids s =
      (Except.error e, s, [Event.call (NetCall.transCall ids)]) := by
  unfold Phabricator.fetch_and_parse_tasks_transactions
  rw [mbind_err (show conduitM (NetCall.transCall ids) (srv.transactions ids) s =
    (Except.error e, s, [Event.call (NetCall.transCall ids)]) by
      rw [conduitM_run, ht])]

/-- Inverting a successful `mbind`. -/
theorem mbind_res_ok {α β : Type} {m : M α} {f : α → M β} {s : St} {b : β}
    (h : (mbind m f s).1 = Except.ok b) :
    ∃ (a : α) (s1 : St) (ev1 : List Event),
      m s = (Except.ok a, s1, ev1) ∧ (f a s1).1 = Except.ok b := by
  rcases hms : m s with ⟨r, s1, ev1⟩
  cases r with
  | error e =>
    rw [mbind_err hms] at h
    simp at h
  | ok a =>
    rw [mbind_ok hms] at h
    exact ⟨a, s1, ev1, rfl, h⟩

theorem processPage_extractErr (srv : Server) (a : Option Json) (s : St)
    (raw : Json) (tasks : List Json) (e : PyErr)
    (hc : ConduitClient.callResult (srv.tasksAt a) = Except.ok raw)
    (hp : Phabricator.parse_tasks raw = Except.ok tasks)
    (hne : ¬tasks = []) (hid : extractIds tasks = Except.error e) :
    processPage srv a s =
      (Except.error e, St.mk s.users (s.queue ++ [raw]),
       [Event.call (NetCall.tasksCall a), Event.push raw]) := by
  unfold processPage
  rw [mbind_ok (show conduitM (NetCall.tasksCall a) (srv.tasksAt a) s =
    (Except.ok raw, s, [Event.call (NetCall.tasksCall a)]) by
      rw [conduitM_run, hc])]
  rw [mbind_ok (show Phabricator.push_cache_queue raw s =
    (Except.ok (), St.mk s.users (s.queue ++ [raw]), [Event.push raw]) from rfl)]
  rw [mbind_ok (show mofExcept (Phabricator.parse_tasks raw)
      (St.mk s.users (s.queue ++ [raw])) =
    (Except.ok tasks, St.mk s.users (s.queue ++ [raw]), []) by
      rw [mofExcept, hp])]
  rw [if_neg hne]
  rw [mbind_err (show mofExcept (extractIds tasks)
      (St.mk s.users (s.queue ++ [raw])) =
    (Except.error e, St.mk s.users (s.queue ++ [raw]), []) by
      rw [mofExcept, hid])]
  simp

/-- Claim C4: the page walk terminates.  (1) An error while processing a
page propagates: the loop performs no further page request.  (2) A page
whose cursor examination said "last page" ends the loop normally with that
page's events only.  (3) When a non-empty page is processed successfully,
the loop's continuation decision is exactly the cursor decision `pageNext`
of that page's raw body.  (4) An empty or null (falsy) cursor decides
"last page".  (5) A page whose parsed task list is empty stops the whole
fetch immediately - its cursor is never even examined - after exactly one
page request and one push. -/
theorem pagination_terminates :
    (∀ (srv : Server) (fuel : Nat) (a : Option Json) (s s2 : St)
       (ev : List Event) (e : PyErr),
      processPage srv a s = (Except.error e, s2, ev) →
      fetchPages srv (fuel + 1) a s = (Except.error e, s2, ev)) ∧
    (∀ (srv : Server) (fuel : Nat) (a : Option Json) (s s2 : St)
       (ev : List Event),
      processPage srv a s = (Except.ok PageOutcome.lastPage, s2, ev) →
      fetchPages srv (fuel + 1) a s = (Except.ok FetchEnd.done, s2, ev)) ∧
    (∀ (srv : Server) (a : Option Json) (s : St) (raw : Json)
       (tasks : List Json) (po : PageOutcome),
      ConduitClient.callResult (srv.tasksAt a) = Except.ok raw →
      Phabricator.parse_tasks raw = Except.ok tasks → ¬tasks = [] →
      (processPage srv a s).1 = Except.ok po →
      pageNext raw = Except.ok po) ∧
    (∀ raw c : Json, cursorAfter raw = Except.ok c → jsonTruthy c = false →
      pageNext raw = Except.ok PageOutcome.lastPage) ∧
    (∀ (srv : Server) (fuel : Nat) (a : Option Json) (s : St) (raw : Json),
      ConduitClient.callResult (srv.tasksAt a) = Except.ok raw →
      Phabricator.parse_tasks raw = Except.ok [] →
      fetchPages srv (fuel + 1) a s =
        (Except.ok FetchEnd.done, St.mk s.users (s.queue ++ [raw]),
         [Event.call (NetCall.tasksCall a), Event.push raw])) := by
  refine ⟨?_, ?_, ?_, ?_, ?_⟩
  · intro srv fuel a s s2 ev e h
    show mbind (processPage srv a) _ s = _
    rw [mbind_err h]
  · intro srv fuel a s s2 ev h
    show mbind (processPage srv a) _ s = _
    rw [mbind_ok h]
    simp [mret]
  · intro srv a s raw tasks po hc hp hne h
    rcases hid : extractIds tasks with e | ids
    · rw [processPage_extractErr srv a s raw tasks e hc hp hne hid] at h
      simp at h
    · rw [processPage_nonempty srv a s raw tasks ids hc hp hne hid] at h
      simp only at h
      unfold pageTail at h
      obtain ⟨tt, sT, evT, hT, h2⟩ := mbind_res_ok h
      obtain ⟨u1, sP, evP, hP, h3⟩ := mbind_res_ok h2
      obtain ⟨u2, sF, evF, hF, h4⟩ := mbind_res_ok h3
      simpa [mofExcept] using h4
  · intro raw c hca htr
    unfold pageNext
    rw [hca]
    simp [htr]
  · intro srv fuel a s raw hc hp
    show mbind (processPage srv a) _ s = _
    rw [mbind_ok (processPage_empty srv a s raw hc hp)]
    simp [mret]

/-- Claim C5: when the bulk transactions lookup for a non-empty page reports
a remote error (truthy error_code, raised as ConduitError with the
server-supplied message and code), the whole page aborts atomically: the
fetch loop stops with exactly the page request, the page push and the
transactions request in its trace - no task of the page is yielded, and the
error reaches the consumer unchanged. -/
theorem transactions_error_aborts_page (srv : Server) (fuel : Nat)
    (a : Option Json) (s : St) (raw : Json) (tasks ids : List Json)
    (info code : Json)
    (hc : ConduitClient.callResult (srv.tasksAt a) = Except.ok raw)
    (hp : Phabricator.parse_tasks raw = Except.ok tasks)
    (hne : ¬tasks = []) (hid : extractIds tasks = Except.ok ids)
    (ht : ConduitClient.callResult (srv.transactions ids) =
      Except.error (PyErr.conduit info code)) :
    fetchPages srv (fuel + 1) a s =
      (Except.error (PyErr.conduit info code),
       St.mk s.users (s.queue ++ [raw]),
       [Event.call (NetCall.tasksCall a), Event.push raw,
        Event.call (NetCall.transCall ids)]) ∧
    (∀ t : Json, Event.yieldTask t ∉
      [Event.call (NetCall.tasksCall a), Event.push raw,
       Event.call (NetCall.transCall ids)]) := by
  have hTail : pageTail srv raw tasks ids (St.mk s.users (s.queue ++ [raw])) =
      (Except.error (PyErr.conduit info code),
       St.mk s.users (s.queue ++ [raw]),
       [Event.call (NetCall.transCall ids)]) := by
    unfold pageTail
    rw [mbind_err (fptt_callErr srv ids (St.mk s.users (s.queue ++ [raw]))
      (PyErr.conduit info code) ht)]
  have hPP : processPage srv a s =
      (Except.error (PyErr.conduit info code),
       St.mk s.users (s.queue ++ [raw]),
       [Event.call (NetCall.tasksCall a), Event.push raw,
        Event.call (NetCall.transCall ids)]) := by
    rw [processPage_nonempty srv a s raw tasks ids hc hp hne hid, hTail]
    simp
  constructor
  · show mbind (processPage srv a) _ s = _
    rw [mbind_err hPP]
  · intro t
    simp

/-- Claim C9: on the final, empty page the raw response is pushed but never
flushed - the loop breaks out before the per-page flush - so at normal
termination the queue still holds that entry; the purge at the start of the
next fetch call is what discards it (fetch always begins with a purge of
whatever the queue holds, and runs the page loop on an emptied queue). -/
theorem final_empty_page_left_unflushed :
    (∀ (srv : Server) (fuel : Nat) (a : Option Json) (s : St) (raw : Json),
      ConduitClient.callResult (srv.tasksAt a) = Except.ok raw →
      Phabricator.parse_tasks raw = Except.ok [] →
      fetchPages srv (fuel + 1) a s =
        (Except.ok FetchEnd.done, St.mk s.users (s.queue ++ [raw]),
         [Event.call (NetCall.tasksCall a), Event.push raw])) ∧
    (∀ s : St, Phabricator.purge_cache_queue s =
      (Except.ok (), St.mk s.users [], [Event.purge s.queue])) ∧
    (∀ (srv : Server) (fuel : Nat) (s : St),
      Phabricator.fetch srv fuel s =
        ((fetchPages srv fuel none (St.mk s.users [])).1,
         (fetchPages srv fuel none (St.mk s.users [])).2.1,
         Event.purge s.queue ::
           (fetchPages srv fuel none (St.mk s.users [])).2.2)) := by
  refine ⟨?_, fun s => rfl, ?_⟩
  · intro srv fuel a s raw hc hp
    show mbind (processPage srv a) _ s = _
    rw [mbind_ok (processPage_empty srv a s raw hc hp)]
    simp [mret]
  · intro srv fuel s
    unfold Phabricator.fetch
    rw [mbind_ok (show Phabricator.purge_cache_queue s =
      (Except.ok (), St.mk s.users [], [Event.purge s.queue]) from rfl)]
    simp

/-- A task listing envelope: result.data holds the tasks, result.cursor.after
the continuation cursor. -/
def pageBody (tasks : List Json) (after : Json) : Json :=
  okEnvelope (Json.obj [("data", Json.arr tasks),
                        ("cursor", Json.obj [("after", after)])])

/-- A concrete task: id 1, author U1, owner U2. -/
def taskA : Json :=
  Json.obj [("id", Json.num 1),
            ("fields", Json.obj [("authorPHID", Json.str "U1"),
                                 ("ownerPHID", Json.str "U2"),
                                 ("dateModified", Json.num 100)])]

/-- A Conduit error envelope, as the remote side reports it. -/
def errEnvelope : Json :=
  Json.obj [("error_code", Json.str "ERR-CONDUIT-CORE"),
            ("error_info", Json.str "transactions failed"),
            ("result", Json.null)]

/-- A server with one non-empty task page whose transactions lookup reports
a remote error. -/
def serverTransFails : Server where
  tasksAt := fun _ => HttpResult.success (pageBody [taskA] Json.null)
  transactions := fun _ => HttpResult.success errEnvelope
  users := fun _ =>
    HttpResult.success (okEnvelope
      (Json.arr [Json.obj [("userName", Json.str "alice")]]))

/-- Witness for claim C5 at a concrete input: against `serverTransFails`,
the fetch loop aborts the first page with the server-supplied ConduitError
and yields no task. -/
theorem transactions_error_aborts_page_witness :
    (fetchPages serverTransFails 1 none initSt =
      (Except.error (PyErr.conduit (Json.str "transactions failed")
        (Json.str "ERR-CONDUIT-CORE")),
       St.mk [] [pageBody [taskA] Json.null],
       [Event.call (NetCall.tasksCall none),
        Event.push (pageBody [taskA] Json.null),
        Event.call (NetCall.transCall [Json.num 1])]) ∧
    (∀ t : Json, Event.yieldTask t ∉
      [Event.call (NetCall.tasksCall none),
       Event.push (pageBody [taskA] Json.null),
       Event.call (NetCall.transCall [Json.num 1])])) :=
  transactions_error_aborts_page serverTransFails 0 none initSt
    (pageBody [taskA] Json.null) [taskA] [Json.num 1]
    (Json.str "transactions failed") (Json.str "ERR-CONDUIT-CORE")
    rfl rfl (by simp) rfl rfl

/-
Event-kind walks: every event a given pipeline function can emit is a
network call of a known kind, a push, or (for the task loop) a yield.
-/

theorem evAll_conduitM (p : Event → Bool) (c : NetCall) (r : HttpResult)
    (h : p (Event.call c) = true) : evAll p (conduitM c r) := by
  unfold conduitM
  exact evAll_mbind (evAll_emit h) (fun _ => evAll_mofExcept p _)

theorem evAll_fetch_and_parse_users (p : Event → Bool) (srv : Server)
    (ids : List Json)
    (hu : ∀ js : List Json, p (Event.call (NetCall.usersCall js)) = true)
    (hpush : ∀ r : Json, p (Event.push r) = true) :
    evAll p (Phabricator.fetch_and_parse_users srv ids) := by
  unfold Phabricator.fetch_and_parse_users
  apply evAll_mbind (evAll_conduitM p _ _ (hu ids))
  intro raw
  exact evAll_mbind (evAll_push raw (hpush raw)) (fun _ => evAll_mofExcept p _)

theorem evAll_get_or_fetch_user (p : Event → Bool) (srv : Server) (uid : Json)
    (hu : ∀ js : List Json, p (Event.call (NetCall.usersCall js)) = true)
    (hpush : ∀ r : Json, p (Event.push r) = true) :
    evAll p (Phabricator.get_or_fetch_user srv uid) := by
  unfold Phabricator.get_or_fetch_user
  apply evAll_mbind (evAll_getUsers p)
  intro cache
  cases alistGet cache uid with
  | some u => exact evAll_mret p u
  | none =>
    apply evAll_mbind (evAll_fetch_and_parse_users p srv [uid] hu hpush)
    intro users
    cases users with
    | nil => exact evAll_mthrow p _
    | cons u rest =>
      exact evAll_mbind (evAll_storeUser p uid u) (fun _ => evAll_mret p u)

theorem evAll_enrichTransaction (p : Event → Bool) (srv : Server) (tt : Json)
    (hu : ∀ js : List Json, p (Event.call (NetCall.usersCall js)) = true)
    (hpush : ∀ r : Json, p (Event.push r) = true) :
    evAll p (enrichTransaction srv tt) := by
  unfold enrichTransaction
  apply evAll_mbind (evAll_mofOption p _ _)
  intro author_id
  apply evAll_mbind (evAll_get_or_fetch_user p srv author_id hu hpush)
  intro author
  exact evAll_mofOption p _ _

theorem evAll_enrichTransList (p : Event → Bool) (srv : Server)
    (tts : List Json)
    (hu : ∀ js : List Json, p (Event.call (NetCall.usersCall js)) = true)
    (hpush : ∀ r : Json, p (Event.push r) = true) :
    evAll p (enrichTransList srv tts) := by
  induction tts with
  | nil => exact evAll_mret p []
  | cons tt rest ih =>
    unfold enrichTransList
    apply evAll_mbind (evAll_enrichTransaction p srv tt hu hpush)
    intro tt1
    exact evAll_mbind ih (fun rest1 => evAll_mret p _)

theorem evAll_enrichTransValue (p : Event → Bool) (srv : Server) (v : Json)
    (hu : ∀ js : List Json, p (Event.call (NetCall.usersCall js)) = true)
    (hpush : ∀ r : Json, p (Event.push r) = true) :
    evAll p (enrichTransValue srv v) := by
  unfold enrichTransValue
  cases pyIter v with
  | none => exact evAll_mthrow p _
  | some elems =>
    apply evAll_mbind (evAll_enrichTransList p srv elems hu hpush)
    intro elems1
    cases v <;> exact evAll_mret p _

theorem evAll_enrichTransMap (p : Event → Bool) (srv : Server)
    (kvs : List (String × Json))
    (hu : ∀ js : List Json, p (Event.call (NetCall.usersCall js)) = true)
    (hpush : ∀ r : Json, p (Event.push r) = true) :
    evAll p (enrichTransMap srv kvs) := by
  induction kvs with
  | nil => exact evAll_mret p []
  | cons kv rest ih =>
    obtain ⟨k, v⟩ := kv
    unfold enrichTransMap
    apply evAll_mbind (evAll_enrichTransValue p srv v hu hpush)
    intro v1
    exact evAll_mbind ih (fun rest1 => evAll_mret p _)

theorem evAll_fptt (p : Event → Bool) (srv : Server) (ids : List Json)
    (hu : ∀ js : List Json, p (Event.call (NetCall.usersCall js)) = true)
    (hpush : ∀ r : Json, p (Event.push r) = true)
    (htc : p (Event.call (NetCall.transCall ids)) = true) :
    evAll p (Phabricator.fetch_and_parse_tasks_transactions srv ids) := by
  unfold Phabricator.fetch_and_parse_tasks_transactions
  apply evAll_mbind (evAll_conduitM p _ _ htc)
  intro raw
  apply evAll_mbind (evAll_push raw (hpush raw))
  intro u1
  apply evAll_mbind (evAll_mofExcept p _)
  intro res
  cases res with
  | obj kvs =>
    exact evAll_mbind (evAll_enrichTransMap p srv kvs hu hpush)
      (fun kvs1 => evAll_mret p _)
  | null => exact evAll_mthrow p _
  | bool b => exact evAll_mthrow p _
  | num n => exact evAll_mthrow p _
  | str s1 => exact evAll_mthrow p _
  | arr xs => exact evAll_mthrow p _

theorem evAll_processTask (p : Event → Bool) (srv : Server)
    (tasks_trans task : Json)
    (hu : ∀ js : List Json, p (Event.call (NetCall.usersCall js)) = true)
    (hpush : ∀ r : Json, p (Event.push r) = true)
    (hy : ∀ t : Json, p (Event.yieldTask t) = true) :
    evAll p (processTask srv tasks_trans task) := by
  unfold processTask
  apply evAll_mbind (evAll_mofOption p _ _)
  intro i
  apply evAll_mbind (evAll_mofOption p _ _)
  intro fields
  apply evAll_mbind (evAll_mofOption p _ _)
  intro author_id
  apply evAll_mbind (evAll_mofOption p _ _)
  intro owner_id
  apply evAll_mbind (evAll_get_or_fetch_user p srv author_id hu hpush)
  intro author
  apply evAll_mbind (evAll_get_or_fetch_user p srv owner_id hu hpush)
  intro owner
  apply evAll_mbind (evAll_mofOption p _ _)
  intro trans
  apply evAll_mbind (evAll_mofOption p _ _)
  intro task2
  exact evAll_emit (hy task2)

theorem evAll_processTasks (p : Event → Bool) (srv : Server)
    (tasks_trans : Json) (tasks : List Json)
    (hu : ∀ js : List Json, p (Event.call (NetCall.usersCall js)) = true)
    (hpush : ∀ r : Json, p (Event.push r) = true)
    (hy : ∀ t : Json, p (Event.yieldTask t) = true) :
    evAll p (processTasks srv tasks_trans tasks) := by
  induction tasks with
  | nil => exact evAll_mret p ()
  | cons t rest ih =>
    unfold processTasks
    exact evAll_mbind (evAll_processTask p srv tasks_trans t hu hpush hy)
      (fun _ => ih)

/-
Queue-tracking walks for the same functions.
-/

theorem qtrack_conduitM (c : NetCall) (r : HttpResult) : qtrack (conduitM c r) := by
  unfold conduitM
  exact qtrack_mbind (qtrack_emit _ (fun r2 => by simp))
    (fun _ => qtrack_mofExcept _)

theorem qtrack_fetch_and_parse_users (srv : Server) (ids : List Json) :
    qtrack (Phabricator.fetch_and_parse_users srv ids) := by
  unfold Phabricator.fetch_and_parse_users
  apply qtrack_mbind (qtrack_conduitM _ _)
  intro raw
  exact qtrack_mbind (qtrack_push raw) (fun _ => qtrack_mofExcept _)

theorem qtrack_get_or_fetch_user (srv : Server) (uid : Json) :
    qtrack (Phabricator.get_or_fetch_user srv uid) := by
  unfold Phabricator.get_or_fetch_user
  apply qtrack_mbind qtrack_getUsers
  intro cache
  cases alistGet cache uid with
  | some u => exact qtrack_mret u
  | none =>
    apply qtrack_mbind (qtrack_fetch_and_parse_users srv [uid])
    intro users
    cases users with
    | nil => exact qtrack_mthrow _
    | cons u rest =>
      exact qtrack_mbind (qtrack_storeUser uid u) (fun _ => qtrack_mret u)

theorem qtrack_enrichTransaction (srv : Server) (tt : Json) :
    qtrack (enrichTransaction srv tt) := by
  unfold enrichTransaction
  apply qtrack_mbind (qtrack_mofOption _ _)
  intro author_id
  apply qtrack_mbind (qtrack_get_or_fetch_user srv author_id)
  intro author
  exact qtrack_mofOption _ _

theorem qtrack_enrichTransList (srv : Server) (tts : List Json) :
    qtrack (enrichTransList srv tts) := by
  induction tts with
  | nil => exact qtrack_mret []
  | cons tt rest ih =>
    unfold enrichTransList
    apply qtrack_mbind (qtrack_enrichTransaction srv tt)
    intro tt1
    exact qtrack_mbind ih (fun rest1 => qtrack_mret _)

theorem qtrack_enrichTransValue (srv : Server) (v : Json) :
    qtrack (enrichTransValue srv v) := by
  unfold enrichTransValue
  cases pyIter v with
  | none => exact qtrack_mthrow _
  | some elems =>
    apply qtrack_mbind (qtrack_enrichTransList srv elems)
    intro elems1
    cases v <;> exact qtrack_mret _

theorem qtrack_enrichTransMap (srv : Server) (kvs : List (String × Json)) :
    qtrack (enrichTransMap srv kvs) := by
  induction kvs with
  | nil => exact qtrack_mret []
  | cons kv rest ih =>
    obtain ⟨k, v⟩ := kv
    unfold enrichTransMap
    apply qtrack_mbind (qtrack_enrichTransValue srv v)
    intro v1
    exact qtrack_mbind ih (fun rest1 => qtrack_mret _)

theorem qtrack_fptt (srv : Server) (ids : List Json) :
    qtrack (Phabricator.fetch_and_parse_tasks_transactions srv ids) := by
  unfold Phabricator.fetch_and_parse_tasks_transactions
  apply qtrack_mbind (qtrack_conduitM _ _)
  intro raw
  apply qtrack_mbind (qtrack_push raw)
  intro u1
  apply qtrack_mbind (qtrack_mofExcept _)
  intro res
  cases res with
  | obj kvs =>
    exact qtrack_mbind (qtrack_enrichTransMap srv kvs)
      (fun kvs1 => qtrack_mret _)
  | null => exact qtrack_mthrow _
  | bool b => exact qtrack_mthrow _
  | num n => exact qtrack_mthrow _
  | str s1 => exact qtrack_mthrow _
  | arr xs => exact qtrack_mthrow _

theorem qtrack_processTask (srv : Server) (tasks_trans task : Json) :
    qtrack (processTask srv tasks_trans task) := by
  unfold processTask
  apply qtrack_mbind (qtrack_mofOption _ _)
  intro i
  apply qtrack_mbind (qtrack_mofOption _ _)
  intro fields
  apply qtrack_mbind (qtrack_mofOption _ _)
  intro author_id
  apply qtrack_mbind (qtrack_mofOption _ _)
  intro owner_id
  apply qtrack_mbind (qtrack_get_or_fetch_user srv author_id)
  intro author
  apply qtrack_mbind (qtrack_get_or_fetch_user srv owner_id)
  intro owner
  apply qtrack_mbind (qtrack_mofOption _ _)
  intro trans
  apply qtrack_mbind (qtrack_mofOption _ _)
  intro task2
  exact qtrack_emit _ (fun r2 => by simp)

theorem qtrack_processTasks (srv : Server) (tasks_trans : Json)
    (tasks : List Json) : qtrack (processTasks srv tasks_trans tasks) := by
  induction tasks with
  | nil => exact qtrack_mret ()
  | cons t rest ih =>
    unfold processTasks
    exact qtrack_mbind (qtrack_processTask srv tasks_trans t) (fun _ => ih)

/-- Inverting a successful `mbind`, with states and traces. -/
theorem mbind_triple_ok {α β : Type} {m : M α} {f : α → M β} {s : St} {b : β}
    {s2 : St} {ev : List Event}
    (h : mbind m f s = (Except.ok b, s2, ev)) :
    ∃ (a : α) (s1 : St) (ev1 ev2 : List Event),
      m s = (Except.ok a, s1, ev1) ∧ f a s1 = (Except.ok b, s2, ev2) ∧
      ev = ev1 ++ ev2 := by
  rcases hms : m s with ⟨r, s1, ev1⟩
  cases r with
  | error e =>
    rw [mbind_err hms] at h
    simp at h
  | ok a =>
    rw [mbind_ok hms] at h
    rcases hfs : f a s1 with ⟨r2, s22, ev22⟩
    rw [hfs] at h
    simp only [Prod.mk.injEq] at h
    obtain ⟨h1, h2, h3⟩ := h
    refine ⟨a, s1, ev1, ev22, rfl, ?_, h3.symm⟩
    rw [hfs, h1, h2]

/-- Events of a page prefix hold no flush. -/
def notFlush (e : Event) : Bool := !isFlush e

/-- Claim C7: a non-empty page processed without error flushes the cache
queue exactly once, as the very last step of the page - after every raw
response behind the page's enriched tasks has been pushed and every task of
the page has been yielded - and what it flushes is exactly the sequence of
payloads pushed during the page (the queue was empty at page start); after
the flush the queue is empty again.  The purge at session start empties the
queue whatever it held. -/
theorem page_flush_exactly_once :
    (∀ (srv : Server) (a : Option Json) (s s2 : St) (po : PageOutcome)
       (ev : List Event),
      s.queue = [] →
      processPage srv a s = (Except.ok po, s2, ev) →
      ¬po = PageOutcome.emptyPage →
      ∃ evPre : List Event,
        ev = evPre ++ [Event.flush (pushesOf evPre)] ∧
        evPre.all notFlush = true ∧
        (ev.filter isFlush).length = 1 ∧
        s2.queue = []) ∧
    (∀ s : St, Phabricator.purge_cache_queue s =
      (Except.ok (), St.mk s.users [], [Event.purge s.queue])) := by
  refine ⟨?_, fun s => rfl⟩
  intro srv a s s2 po ev hq h hne
  rcases hc : ConduitClient.callResult (srv.tasksAt a) with e | raw
  · rw [processPage_callErr srv a s e hc] at h
    simp at h
  · rcases hp : Phabricator.parse_tasks raw with e | tasks
    · rw [processPage_parseErr srv a s raw e hc hp] at h
      simp at h
    · by_cases ht0 : tasks = []
      · subst ht0
        rw [processPage_empty srv a s raw hc hp] at h
        simp only [Prod.mk.injEq] at h
        obtain ⟨h1, h2, h3⟩ := h
        injection h1 with h1
        exact absurd h1.symm hne
      · rcases hid : extractIds tasks with e | ids
        · rw [processPage_extractErr srv a s raw tasks e hc hp ht0 hid] at h
          simp at h
        · rw [processPage_nonempty srv a s raw tasks ids hc hp ht0 hid] at h
          rcases hPT : pageTail srv raw tasks ids
              (St.mk s.users (s.queue ++ [raw])) with ⟨rT, sTT, evTT⟩
          rw [hPT] at h
          simp only [Prod.mk.injEq] at h
          obtain ⟨h1, h2, h3⟩ := h
          subst h1
          subst h2
          unfold pageTail at hPT
          obtain ⟨tt, sA, evA, evB, hA, hB, hAB⟩ := mbind_triple_ok hPT
          obtain ⟨u1, sB, evC, evD, hC, hD, hCD⟩ := mbind_triple_ok hB
          have hFl : mbind Phabricator.flush_cache_queue
              (fun _ => mofExcept (pageNext raw)) sB =
              (pageNext raw, St.mk sB.users [], [Event.flush sB.queue]) := by
            rw [mbind_ok (show Phabricator.flush_cache_queue sB =
              (Except.ok (), St.mk sB.users [], [Event.flush sB.queue])
              from rfl)]
            simp [mofExcept]
          rw [hFl] at hD
          simp only [Prod.mk.injEq] at hD
          obtain ⟨hD1, hD2, hD3⟩ := hD
          have hqA : sA.queue = (s.queue ++ [raw]) ++ pushesOf evA := by
            have hh := qtrack_fptt srv ids (St.mk s.users (s.queue ++ [raw]))
            rw [hA] at hh
            simpa using hh
          have hqB : sB.queue = sA.queue ++ pushesOf evC := by
            have hh := qtrack_processTasks srv tt tasks sA
            rw [hC] at hh
            simpa using hh
          have hfA : evA.all notFlush = true := by
            have hh := evAll_fptt notFlush srv ids (fun js => rfl)
              (fun r => rfl) rfl (St.mk s.users (s.queue ++ [raw]))
            rw [hA] at hh
            simpa using hh
          have hfC : evC.all notFlush = true := by
            have hh := evAll_processTasks notFlush srv tt tasks (fun js => rfl)
              (fun r => rfl) (fun t => rfl) sA
            rw [hC] at hh
            simpa using hh
          have hcontent : sB.queue =
              pushesOf ([Event.call (NetCall.tasksCall a), Event.push raw] ++
                evA ++ evC) := by
            rw [pushesOf_append, pushesOf_append, hqB, hqA, hq]
            simp [pushesOf]
          have hEv : ev = ([Event.call (NetCall.tasksCall a), Event.push raw] ++
              evA ++ evC) ++
              [Event.flush (pushesOf
                ([Event.call (NetCall.tasksCall a), Event.push raw] ++
                  evA ++ evC))] := by
            rw [← h3, hAB, hCD, ← hD3, ← hcontent]
            simp
          have hallPre : ([Event.call (NetCall.tasksCall a), Event.push raw] ++
              evA ++ evC).all notFlush = true := by
            simp [List.all_append, hfA, hfC, notFlush, isFlush]
          refine ⟨[Event.call (NetCall.tasksCall a), Event.push raw] ++
            evA ++ evC, hEv, hallPre, ?_, ?_⟩
          · rw [hEv, List.filter_append]
            have hnil : ([Event.call (NetCall.tasksCall a), Event.push raw] ++
                evA ++ evC).filter isFlush = [] := by
              rw [List.filter_eq_nil_iff]
              intro e he
              have := List.all_eq_true.mp hallPre e he
              simp only [notFlush, Bool.not_eq_true', Bool.not_eq_true] at this
              simp [this]
            rw [hnil]
            simp [isFlush]
          · rw [← hD2]

/-- A transactions response mapping task "1" to an empty transaction list. -/
def transBody1 : Json := okEnvelope (Json.obj [("1", Json.arr [])])

/-- A concrete user record. -/
def userAlice : Json := Json.obj [("userName", Json.str "alice")]

/-- A server with a single non-empty page (falsy cursor), an empty
transaction list for the page's task and a well-formed user record for
every identity lookup. -/
def serverOnePage : Server where
  tasksAt := fun _ => HttpResult.success (pageBody [taskA] (Json.str ""))
  transactions := fun _ => HttpResult.success transBody1
  users := fun _ => HttpResult.success (okEnvelope (Json.arr [userAlice]))

/-- Counterexample to claim C3 as stated: the `_users` cache of the
Identity Resolver is initialized in `Phabricator.__init__`, not in `fetch`,
so it is NOT re-created per fetch call.  Concretely: after one fetch against
`serverOnePage` the instance's cache is non-empty ("U1" was looked up once);
a second fetch on the same instance yields a task whose author is "U1" yet
issues zero user.query requests for "U1" - its cache at the start of the
second call was not empty.  (The queue-purge half of the claim does hold;
see the amended theorem.) -/
theorem fresh_session_cache_counterexample :
    (runSt (Phabricator.fetch serverOnePage 2) initSt).users ≠ [] ∧
    countUserCalls (runEv (Phabricator.fetch serverOnePage 2) initSt)
      (Json.str "U1") = 1 ∧
    countUserCalls (runEv (Phabricator.fetch serverOnePage 2)
      (runSt (Phabricator.fetch serverOnePage 2) initSt)) (Json.str "U1") = 0 ∧
    (runEv (Phabricator.fetch serverOnePage 2)
      (runSt (Phabricator.fetch serverOnePage 2) initSt)).any isYield
      = true := by
  refine ⟨by decide, by decide, by decide, by decide⟩

/-- Claim C3 amended: each fetch call begins by purging the Response Cache
Queue (the page loop then runs on an emptied queue), but the Identity
Resolver's user cache is NOT re-created per call: it is created empty once,
at instance construction, and each fetch runs with the cache carried over
unchanged from the instance state - an identifier already cached when fetch
starts is never looked up over the network during that fetch. -/
theorem fetch_session_state_amended :
    (∀ (srv : Server) (fuel : Nat) (s : St),
      Phabricator.fetch srv fuel s =
        ((fetchPages srv fuel none (St.mk s.users [])).1,
         (fetchPages srv fuel none (St.mk s.users [])).2.1,
         Event.purge s.queue ::
           (fetchPages srv fuel none (St.mk s.users [])).2.2)) ∧
    (∀ (srv : Server) (fuel : Nat) (s : St) (u : Json),
      hasUser s.users u = true →
      countUserCalls (runEv (Phabricator.fetch srv fuel) s) u = 0) ∧
    initSt = St.mk [] [] := by
  refine ⟨?_, ?_, rfl⟩
  · intro srv fuel s
    unfold Phabricator.fetch
    rw [mbind_ok (show Phabricator.purge_cache_queue s =
      (Except.ok (), St.mk s.users [], [Event.purge s.queue]) from rfl)]
    simp
  · intro srv fuel s u hu
    have hb := (ucb_fetch srv fuel s u).1
    rw [if_pos hu] at hb
    unfold runEv
    omega

/-- Claim C8: parsing a well-formed listing response extracts the task array
unchanged (so re-serializing the extracted array reproduces the original
data field exactly), and enrichment only adds fields: it installs
`transactions` at the top level and `authorData` / `ownerData` inside
`fields`, changing no other key's value and removing or renaming nothing. -/
theorem parse_roundtrip_enrich_only_adds :
    (∀ (raw res : Json) (ts : List Json),
      raw.getItem "result" = some res →
      res.getItem "data" = some (Json.arr ts) →
      Phabricator.parse_tasks raw = Except.ok ts ∧
      ∀ d : Json, res.getItem "data" = some d →
        Json.dumps (Json.arr ts) = Json.dumps d) ∧
    (∀ task a o tr task2 : Json,
      Phabricator.enrichTask task a o tr = some task2 →
      (∀ k : String, ¬k = "fields" → ¬k = "transactions" →
        task2.getItem k = task.getItem k) ∧
      (∀ k : String, (task.getItem k).isSome = true →
        (task2.getItem k).isSome = true) ∧
      (∀ k : String, (task2.getItem k).isSome = true →
        (task.getItem k).isSome = true ∨ k = "transactions") ∧
      task2.getItem "transactions" = some tr ∧
      (∃ f f2 : Json, task.getItem "fields" = some f ∧
        task2.getItem "fields" = some f2 ∧
        (∀ k : String, ¬k = "authorData" → ¬k = "ownerData" →
          f2.getItem k = f.getItem k) ∧
        (∀ k : String, (f.getItem k).isSome = true →
          (f2.getItem k).isSome = true) ∧
        (∀ k : String, (f2.getItem k).isSome = true →
          (f.getItem k).isSome = true ∨ k = "authorData" ∨ k = "ownerData") ∧
        f2.getItem "authorData" = some a ∧ f2.getItem "ownerData" = some o)) := by
  constructor
  · intro raw res ts h1 h2
    constructor
    · simp [Phabricator.parse_tasks, h1, h2, pyIter]
    · intro d hd
      rw [h2] at hd
      injection hd with hd
      rw [hd]
  · intro task a o tr task2 h
    unfold Phabricator.enrichTask at h
    cases hf : task.getItem "fields" with
    | none =>
      rw [hf] at h
      simp at h
    | some f =>
      rw [hf] at h
      cases task with
      | obj kts =>
        cases f with
        | obj kfs =>
          simp only [Json.setItem] at h
          injection h with h
          subst h
          simp only [Json.getItem] at hf
          refine ⟨?_, ?_, ?_, ?_, Json.obj kfs,
            Json.obj (alistSet (alistSet kfs "authorData" a) "ownerData" o),
            ?_, ?_, ?_, ?_, ?_, ?_, ?_⟩
          · intro k hk1 hk2
            simp only [Json.getItem]
            rw [alistGet_set_ne _ _ _ _ hk2, alistGet_set_ne _ _ _ _ hk1]
          · intro k hk
            simp only [Json.getItem] at hk ⊢
            rw [alistGet_set_isSome, alistGet_set_isSome]
            right
            right
            exact hk
          · intro k hk
            simp only [Json.getItem] at hk ⊢
            rw [alistGet_set_isSome] at hk
            rcases hk with hk | hk
            · right
              exact hk
            · rw [alistGet_set_isSome] at hk
              rcases hk with hk | hk
              · left
                subst hk
                simp [hf]
              · left
                exact hk
          · simp only [Json.getItem]
            rw [alistGet_set_eq]
          · rfl
          · simp only [Json.getItem]
            rw [alistGet_set_ne _ _ _ _ (by simp), alistGet_set_eq]
          · intro k hk1 hk2
            simp only [Json.getItem]
            rw [alistGet_set_ne _ _ _ _ hk2, alistGet_set_ne _ _ _ _ hk1]
          · intro k hk
            simp only [Json.getItem] at hk ⊢
            rw [alistGet_set_isSome, alistGet_set_isSome]
            right
            right
            exact hk
          · intro k hk
            simp only [Json.getItem] at hk ⊢
            rw [alistGet_set_isSome] at hk
            rcases hk with hk | hk
            · right
              right
              exact hk
            · rw [alistGet_set_isSome] at hk
              rcases hk with hk | hk
              · right
                left
                exact hk
              · left
                exact hk
          · simp only [Json.getItem]
            rw [alistGet_set_ne _ _ _ _ (by simp), alistGet_set_eq]
          · simp only [Json.getItem]
            rw [alistGet_set_eq]
        | null => simp [Json.setItem] at h
        | bool b => simp [Json.setItem] at h
        | num n => simp [Json.setItem] at h
        | str s1 => simp [Json.setItem] at h
        | arr xs => simp [Json.setItem] at h
      | null => simp [Json.getItem] at hf
      | bool b => simp [Json.getItem] at hf
      | num n => simp [Json.getItem] at hf
      | str s1 => simp [Json.getItem] at hf
      | arr xs => simp [Json.getItem] at hf

/-
Claim C1: goodness predicates and server well-formedness.
-/

/-- A resolved identity record that is not JSON null. -/
def goodUser (u : Json) : Bool := decide (u ≠ Json.null)

/-- A transaction record carrying a non-null authorData field. -/
def goodTransaction (tt : Json) : Bool :=
  match tt.getItem "authorData" with
  | some a => goodUser a
  | none => false

/-- A transactions value: a list each of whose records is good. -/
def transGood (v : Json) : Bool :=
  match v with
  | Json.arr tts => tts.all goodTransaction
  | _ => false

/-- An enriched transactions mapping: every value is a good list. -/
def goodTransMap (tm : Json) : Bool :=
  match tm with
  | Json.obj kvs => kvs.all (fun kv => transGood kv.2)
  | _ => false

/-- The invariant of claim C1 for one yielded task: non-null authorData
and ownerData inside fields, and a transactions list (present, a list,
possibly empty) each of whose elements carries non-null authorData. -/
def goodTask (t : Json) : Bool :=
  match t.getItem "fields" with
  | none => false
  | some f =>
    (match f.getItem "authorData" with
     | some a => goodUser a
     | none => false) &&
    (match f.getItem "ownerData" with
     | some o => goodUser o
     | none => false) &&
    (match t.getItem "transactions" with
     | some tr => transGood tr
     | none => false)

/-- Server well-formedness for identity lookups (spec 6: identity lookup
result is an array of user objects): parsed user records are non-null. -/
def usersWF (srv : Server) : Prop :=
  ∀ (ps : List Json) (body : Json) (us : List Json),
    ConduitClient.callResult (srv.users ps) = Except.ok body →
    Phabricator.parse_users body = Except.ok us →
    ∀ u ∈ us, u ≠ Json.null

/-- Server well-formedness for transactions lookups (spec 6: result maps
task identifiers to arrays of transaction objects): every value of the
mapping is an array. -/
def transWF (srv : Server) : Prop :=
  ∀ (ids : List Json) (body res : Json) (kvs : List (String × Json)),
    ConduitClient.callResult (srv.transactions ids) = Except.ok body →
    Phabricator.parse_tasks_transactions body = Except.ok res →
    res = Json.obj kvs →
    ∀ kv ∈ kvs, ∃ xs : List Json, kv.2 = Json.arr xs

/-- Every record cached in `_users` is good. -/
def cacheGood (users : List (Json × Json)) : Prop :=
  ∀ kv ∈ users, goodUser kv.2 = true

theorem alistSet_mem {κ α : Type} [DecidableEq κ] (l : List (κ × α)) (k : κ)
    (v : α) (kv : κ × α) (h : kv ∈ alistSet l k v) : kv = (k, v) ∨ kv ∈ l := by
  induction l with
  | nil =>
    simp [alistSet] at h
    left
    exact h
  | cons hd t ih =>
    obtain ⟨k1, v1⟩ := hd
    simp only [alistSet] at h
    by_cases hk : k1 = k
    · rw [if_pos hk] at h
      rcases List.mem_cons.mp h with h | h
      · left
        exact h
      · right
        exact List.mem_cons_of_mem _ h
    · rw [if_neg hk] at h
      rcases List.mem_cons.mp h with h | h
      · right
        rw [h]
        exact List.mem_cons_self _ _
      · rcases ih h with h2 | h2
        · left
          exact h2
        · right
          exact List.mem_cons_of_mem _ h2

/-- The yield-goodness walk: from a good cache, every task the computation
yields is good; on success the cache is still good and the result satisfies
`good`. -/
def ygood {α : Type} (good : α → Prop) (m : M α) : Prop :=
  ∀ s : St, cacheGood s.users →
    (∀ t : Json, Event.yieldTask t ∈ (m s).2.2 → goodTask t = true) ∧
    (∀ (a : α) (s2 : St) (ev : List Event), m s = (Except.ok a, s2, ev) →
      cacheGood s2.users ∧ good a)

theorem ygood_mbind {α β : Type} {good1 : α → Prop} {good2 : β → Prop}
    {m : M α} {f : α → M β} (hm : ygood good1 m)
    (hf : ∀ a, good1 a → ygood good2 (f a)) : ygood good2 (mbind m f) := by
  intro s hs
  obtain ⟨hy1, hk1⟩ := hm s hs
  rcases hms : m s with ⟨r, s1, ev1⟩
  rw [hms] at hy1 hk1
  simp only at hy1 hk1
  cases r with
  | error e =>
    constructor
    · intro t ht
      rw [mbind_err hms] at ht
      exact hy1 t ht
    · intro a s2 ev hEq
      rw [mbind_err hms] at hEq
      simp at hEq
  | ok a =>
    obtain ⟨hs1, hga⟩ := hk1 a s1 ev1 rfl
    obtain ⟨hy2, hk2⟩ := hf a hga s1 hs1
    constructor
    · intro t ht
      rw [mbind_ok hms] at ht
      simp only [List.mem_append] at ht
      rcases ht with ht | ht
      · exact hy1 t ht
      · exact hy2 t ht
    · intro a2 s2 ev hEq
      rw [mbind_ok hms] at hEq
      rcases hfs : f a s1 with ⟨r2, s22, ev22⟩
      rw [hfs] at hEq
      simp only [Prod.mk.injEq] at hEq
      obtain ⟨e1, e2, e3⟩ := hEq
      have hres := hk2 a2 s22 ev22 (by rw [hfs, e1])
      rw [e2] at hres
      exact hres

theorem ygood_mret {α : Type} {good : α → Prop} (a : α) (h : good a) :
    ygood good (mret a) := by
  intro s hs
  constructor
  · intro t ht
    simp [mret] at ht
  · intro a2 s2 ev hEq
    simp only [mret, Prod.mk.injEq] at hEq
    obtain ⟨e1, e2, e3⟩ := hEq
    injection e1 with e1
    rw [← e2]
    rw [← e1]
    exact ⟨hs, h⟩

theorem ygood_mthrow {α : Type} (good : α → Prop) (e : PyErr) :
    ygood good (mthrow e) := by
  intro s hs
  constructor
  · intro t ht
    simp [mthrow] at ht
  · intro a2 s2 ev hEq
    simp [mthrow] at hEq

theorem ygood_mofExcept {α : Type} {good : α → Prop} (r : Except PyErr α)
    (h : ∀ a, r = Except.ok a → good a) : ygood good (mofExcept r) := by
  intro s hs
  constructor
  · intro t ht
    simp [mofExcept] at ht
  · intro a2 s2 ev hEq
    simp only [mofExcept, Prod.mk.injEq] at hEq
    obtain ⟨e1, e2, e3⟩ := hEq
    rw [← e2]
    exact ⟨hs, h a2 e1⟩

theorem ygood_mofOption {α : Type} {good : α → Prop} (o : Option α)
    (e : PyErr) (h : ∀ a, o = some a → good a) : ygood good (mofOption o e) := by
  cases ho : o with
  | none => exact ygood_mthrow good e
  | some a => exact ygood_mret a (h a ho)

theorem ygood_noUsersEffect {α : Type} {m : M α}
    (h : ∀ s : St, ((m s).2.1).users = s.users ∧
      ∀ t : Json, Event.yieldTask t ∉ (m s).2.2) :
    ygood (fun _ => True) m := by
  intro s hs
  obtain ⟨h1, h2⟩ := h s
  constructor
  · intro t ht
    exact absurd ht (h2 t)
  · intro a2 s2 ev hEq
    have hu : s2.users = s.users := by
      rw [hEq] at h1
      exact h1
    rw [hu]
    exact ⟨hs, trivial⟩

theorem ygood_push (raw : Json) :
    ygood (fun _ => True) (Phabricator.push_cache_queue raw) := by
  apply ygood_noUsersEffect
  intro s
  refine ⟨rfl, fun t => ?_⟩
  simp [Phabricator.push_cache_queue]

theorem ygood_flush : ygood (fun _ => True) Phabricator.flush_cache_queue := by
  apply ygood_noUsersEffect
  intro s
  refine ⟨rfl, fun t => ?_⟩
  simp [Phabricator.flush_cache_queue]

theorem ygood_purge : ygood (fun _ => True) Phabricator.purge_cache_queue := by
  apply ygood_noUsersEffect
  intro s
  refine ⟨rfl, fun t => ?_⟩
  simp [Phabricator.purge_cache_queue]

theorem ygood_conduitM (c : NetCall) (r : HttpResult) :
    ygood (fun raw => ConduitClient.callResult r = Except.ok raw)
      (conduitM c r) := by
  intro s hs
  constructor
  · intro t ht
    rw [conduitM_run] at ht
    simp at ht
  · intro a2 s2 ev hEq
    rw [conduitM_run] at hEq
    simp only [Prod.mk.injEq] at hEq
    obtain ⟨e1, e2, e3⟩ := hEq
    rw [← e2]
    exact ⟨hs, e1⟩

theorem ygood_emit_goodYield (t : Json) (h : goodTask t = true) :
    ygood (fun _ => True) (emit (Event.yieldTask t)) := by
  intro s hs
  constructor
  · intro t2 ht
    simp only [emit, List.mem_singleton] at ht
    injection ht with ht
    rw [ht]
    exact h
  · intro a2 s2 ev hEq
    simp only [emit, Prod.mk.injEq] at hEq
    obtain ⟨e1, e2, e3⟩ := hEq
    rw [← e2]
    exact ⟨hs, trivial⟩

theorem ygood_get_or_fetch_user (srv : Server) (uid : Json)
    (hU : usersWF srv) :
    ygood (fun u => goodUser u = true)
      (Phabricator.get_or_fetch_user srv uid) := by
  intro s hs
  constructor
  · intro t ht
    have hh := evAll_get_or_fetch_user (fun e => !isYield e) srv uid
      (fun js => rfl) (fun r => rfl) s
    have := List.all_eq_true.mp hh _ ht
    simp [isYield] at this
  · intro u2 s2 ev hEq
    rcases hcache : alistGet s.users uid with _ | v
    · rcases hc : ConduitClient.callResult (srv.users [uid]) with e | raw
      · rw [get_or_fetch_user_miss_callErr srv uid s e hcache hc] at hEq
        simp at hEq
      · rcases hp : Phabricator.parse_users raw with e | us
        · rw [get_or_fetch_user_miss_parseErr srv uid s raw e hcache hc hp]
            at hEq
          simp at hEq
        · cases us with
          | nil =>
            rw [get_or_fetch_user_miss_emptyRes srv uid s raw hcache hc hp]
              at hEq
            simp at hEq
          | cons v1 rest =>
            rw [get_or_fetch_user_miss_found srv uid s raw v1 rest hcache hc hp]
              at hEq
            simp only [Prod.mk.injEq] at hEq
            obtain ⟨e1, e2, e3⟩ := hEq
            injection e1 with e1
            have hgood : goodUser v1 = true := by
              have hnn := hU [uid] raw (v1 :: rest) hc hp v1
                (List.mem_cons_self _ _)
              simp [goodUser, hnn]
            constructor
            · rw [← e2]
              intro kv hkv
              rcases alistSet_mem s.users uid v1 kv hkv with h2 | h2
              · rw [h2]
                exact hgood
              · exact hs kv h2
            · rw [← e1]
              exact hgood
    · rw [get_or_fetch_user_hit srv uid s v hcache] at hEq
      simp only [Prod.mk.injEq] at hEq
      obtain ⟨e1, e2, e3⟩ := hEq
      injection e1 with e1
      constructor
      · rw [← e2]
        exact hs
      · rw [← e1]
        exact hs (uid, v) (alistGet_mem s.users uid v hcache)

theorem ygood_enrichTransaction (srv : Server) (tt : Json)
    (hU : usersWF srv) :
    ygood (fun tt2 => goodTransaction tt2 = true) (enrichTransaction srv tt) := by
  unfold enrichTransaction
  apply ygood_mbind (ygood_mofOption _ _ (fun a ha => trivial))
  intro author_id ha1
  apply ygood_mbind (ygood_get_or_fetch_user srv author_id hU)
  intro author hauthor
  apply ygood_mofOption
  intro tt2 hset
  cases tt with
  | obj ktt =>
    simp only [Json.setItem] at hset
    injection hset with hset
    rw [← hset]
    simp only [goodTransaction, Json.getItem]
    rw [alistGet_set_eq]
    exact hauthor
  | null => simp [Json.setItem] at hset
  | bool b => simp [Json.setItem] at hset
  | num n => simp [Json.setItem] at hset
  | str s1 => simp [Json.setItem] at hset
  | arr xs => simp [Json.setItem] at hset

theorem ygood_enrichTransList (srv : Server) (hU : usersWF srv) :
    ∀ tts : List Json,
      ygood (fun l => l.all goodTransaction = true) (enrichTransList srv tts)
  | [] => by
    unfold enrichTransList
    exact ygood_mret [] (by simp)
  | tt :: rest => by
    unfold enrichTransList
    apply ygood_mbind (ygood_enrichTransaction srv tt hU)
    intro tt1 h1
    apply ygood_mbind (ygood_enrichTransList srv hU rest)
    intro rest1 h2
    apply ygood_mret
    simp [h1, h2]

theorem ygood_enrichTransValue (srv : Server) (v : Json) (xs : List Json)
    (hU : usersWF srv) (hv : v = Json.arr xs) :
    ygood (fun v2 => transGood v2 = true) (enrichTransValue srv v) := by
  subst hv
  unfold enrichTransValue
  simp only [pyIter]
  apply ygood_mbind (ygood_enrichTransList srv hU xs)
  intro elems1 h1
  apply ygood_mret
  simp [transGood, h1]

theorem ygood_enrichTransMap (srv : Server) (hU : usersWF srv) :
    ∀ kvs : List (String × Json),
      (∀ kv ∈ kvs, ∃ xs : List Json, kv.2 = Json.arr xs) →
      ygood (fun kvs2 => kvs2.all (fun kv => transGood kv.2) = true)
        (enrichTransMap srv kvs)
  | [], _ => by
    unfold enrichTransMap
    exact ygood_mret [] (by simp)
  | (k, v) :: rest, hv => by
    unfold enrichTransMap
    obtain ⟨xs, hxs⟩ := hv (k, v) (List.mem_cons_self _ _)
    apply ygood_mbind (ygood_enrichTransValue srv v xs hU hxs)
    intro v1 h1
    apply ygood_mbind (ygood_enrichTransMap srv hU rest
      (fun kv hkv => hv kv (List.mem_cons_of_mem _ hkv)))
    intro rest1 h2
    apply ygood_mret
    simp [h1, h2]

theorem ygood_fptt (srv : Server) (ids : List Json) (hU : usersWF srv)
    (hT : transWF srv) :
    ygood (fun tm => goodTransMap tm = true)
      (Phabricator.fetch_and_parse_tasks_transactions srv ids) := by
  unfold Phabricator.fetch_and_parse_tasks_transactions
  apply ygood_mbind (ygood_conduitM (NetCall.transCall ids)
    (srv.transactions ids))
  intro raw hraw
  apply ygood_mbind (ygood_push raw)
  intro u1 hu1
  apply ygood_mbind (ygood_mofExcept (Phabricator.parse_tasks_transactions raw)
    (fun res hres => hres))
  intro res hres
  cases res with
  | obj kvs =>
    have hvals : ∀ kv ∈ kvs, ∃ xs : List Json, kv.2 = Json.arr xs :=
      hT ids raw (Json.obj kvs) kvs hraw hres rfl
    apply ygood_mbind (ygood_enrichTransMap srv hU kvs hvals)
    intro kvs1 h1
    apply ygood_mret
    simp [goodTransMap, h1]
  | null => exact ygood_mthrow _ _
  | bool b => exact ygood_mthrow _ _
  | num n => exact ygood_mthrow _ _
  | str s1 => exact ygood_mthrow _ _
  | arr xs => exact ygood_mthrow _ _

theorem transMap_lookup {tm v : Json} {k : String}
    (htm : goodTransMap tm = true) (h : tm.getItem k = some v) :
    transGood v = true := by
  cases tm with
  | obj kvs =>
    simp only [Json.getItem] at h
    have hmem := alistGet_mem kvs k v h
    exact List.all_eq_true.mp htm (k, v) hmem
  | null => simp [Json.getItem] at h
  | bool b => simp [Json.getItem] at h
  | num n => simp [Json.getItem] at h
  | str s1 => simp [Json.getItem] at h
  | arr xs => simp [Json.getItem] at h

theorem enrichTask_good {task a o tr task2 : Json} (ha : goodUser a = true)
    (ho : goodUser o = true) (htr : transGood tr = true)
    (h : Phabricator.enrichTask task a o tr = some task2) :
    goodTask task2 = true := by
  unfold Phabricator.enrichTask at h
  cases hf : task.getItem "fields" with
  | none =>
    rw [hf] at h
    simp at h
  | some f =>
    rw [hf] at h
    cases task with
    | obj kts =>
      cases f with
      | obj kfs =>
        simp only [Json.setItem] at h
        injection h with h
        rw [← h]
        have h1 : (Json.obj (alistSet (alistSet kts "fields"
            (Json.obj (alistSet (alistSet kfs "authorData" a) "ownerData" o)))
            "transactions" tr)).getItem "fields" =
            some (Json.obj (alistSet (alistSet kfs "authorData" a)
              "ownerData" o)) := by
          simp only [Json.getItem]
          rw [alistGet_set_ne _ _ _ _ (by simp), alistGet_set_eq]
        have h2 : (Json.obj (alistSet (alistSet kts "fields"
            (Json.obj (alistSet (alistSet kfs "authorData" a) "ownerData" o)))
            "transactions" tr)).getItem "transactions" = some tr := by
          simp only [Json.getItem]
          rw [alistGet_set_eq]
        have h3 : (Json.obj (alistSet (alistSet kfs "authorData" a)
            "ownerData" o)).getItem "authorData" = some a := by
          simp only [Json.getItem]
          rw [alistGet_set_ne _ _ _ _ (by simp), alistGet_set_eq]
        have h4 : (Json.obj (alistSet (alistSet kfs "authorData" a)
            "ownerData" o)).getItem "ownerData" = some o := by
          simp only [Json.getItem]
          rw [alistGet_set_eq]
        simp [goodTask, h1, h2, h3, h4, ha, ho, htr]
      | null => simp [Json.setItem] at h
      | bool b => simp [Json.setItem] at h
      | num n => simp [Json.setItem] at h
      | str s1 => simp [Json.setItem] at h
      | arr xs => simp [Json.setItem] at h
    | null => simp [Json.getItem] at hf
    | bool b => simp [Json.getItem] at hf
    | num n => simp [Json.getItem] at hf
    | str s1 => simp [Json.getItem] at hf
    | arr xs => simp [Json.getItem] at hf

theorem ygood_processTask (srv : Server) (tm task : Json) (hU : usersWF srv)
    (htm : goodTransMap tm = true) :
    ygood (fun _ => True) (processTask srv tm task) := by
  unfold processTask
  apply ygood_mbind (ygood_mofOption _ _ (fun a _ => trivial))
  intro i hi
  apply ygood_mbind (ygood_mofOption _ _ (fun a _ => trivial))
  intro fields hfields
  apply ygood_mbind (ygood_mofOption _ _ (fun a _ => trivial))
  intro author_id ha1
  apply ygood_mbind (ygood_mofOption _ _ (fun a _ => trivial))
  intro owner_id ho1
  apply ygood_mbind (ygood_get_or_fetch_user srv author_id hU)
  intro author hauthor
  apply ygood_mbind (ygood_get_or_fetch_user srv owner_id hU)
  intro owner howner
  apply ygood_mbind (ygood_mofOption _ _
    (fun trans htrans => transMap_lookup htm htrans))
  intro trans htrans
  apply ygood_mbind (ygood_mofOption _ _
    (fun task2 h2 => enrichTask_good hauthor howner htrans h2))
  intro task2 h2
  exact ygood_emit_goodYield task2 h2

theorem ygood_processTasks (srv : Server) (tm : Json) (hU : usersWF srv)
    (htm : goodTransMap tm = true) :
    ∀ tasks : List Json, ygood (fun _ => True) (processTasks srv tm tasks)
  | [] => by
    unfold processTasks
    exact ygood_mret () trivial
  | t :: rest => by
    unfold processTasks
    apply ygood_mbind (ygood_processTask srv tm t hU htm)
    intro u1 _
    exact ygood_processTasks srv tm hU htm rest

theorem ygood_processPage (srv : Server) (a : Option Json) (hU : usersWF srv)
    (hT : transWF srv) : ygood (fun _ => True) (processPage srv a) := by
  unfold processPage
  apply ygood_mbind (ygood_conduitM (NetCall.tasksCall a) (srv.tasksAt a))
  intro raw hraw
  apply ygood_mbind (ygood_push raw)
  intro u1 hu1
  apply ygood_mbind (ygood_mofExcept (Phabricator.parse_tasks raw)
    (fun a2 _ => trivial))
  intro tasks htasks
  by_cases h0 : tasks = []
  · rw [if_pos h0]
    exact ygood_mret _ trivial
  · rw [if_neg h0]
    apply ygood_mbind (ygood_mofExcept (extractIds tasks) (fun a2 _ => trivial))
    intro tasks_ids hids
    apply ygood_mbind (ygood_fptt srv tasks_ids hU hT)
    intro tasks_trans htm
    apply ygood_mbind (ygood_processTasks srv tasks_trans hU htm tasks)
    intro u2 hu2
    apply ygood_mbind ygood_flush
    intro u3 hu3
    exact ygood_mofExcept (pageNext raw) (fun a2 _ => trivial)

theorem ygood_fetchPages (srv : Server) (hU : usersWF srv) (hT : transWF srv) :
    ∀ (fuel : Nat) (a : Option Json),
      ygood (fun _ => True) (fetchPages srv fuel a)
  | 0, a => by
    unfold fetchPages
    exact ygood_mret _ trivial
  | Nat.succ n, a => by
    unfold fetchPages
    apply ygood_mbind (ygood_processPage srv a hU hT)
    intro po _
    cases po with
    | emptyPage => exact ygood_mret _ trivial
    | lastPage => exact ygood_mret _ trivial
    | nextCursor c => exact ygood_fetchPages srv hU hT n (some c)

theorem ygood_fetch (srv : Server) (fuel : Nat) (hU : usersWF srv)
    (hT : transWF srv) : ygood (fun _ => True) (Phabricator.fetch srv fuel) := by
  unfold Phabricator.fetch
  apply ygood_mbind ygood_purge
  intro u1 _
  exact ygood_fetchPages srv hU hT fuel none

/-- Claim C1: provided the server's user-lookup responses carry non-null
user records and its transactions responses map task ids to arrays (the
response shapes of spec section 6), and every record already cached is
non-null (vacuous on a fresh instance), every task the fetch yields has
non-null authorData and ownerData, and a transactions field holding a list
(possibly empty, never absent) each of whose records carries non-null
authorData - on every page the fetch yields. -/
theorem every_yielded_task_enriched (srv : Server) (fuel : Nat) (s : St)
    (hU : usersWF srv) (hT : transWF srv) (hC : cacheGood s.users) :
    ∀ t : Json, Event.yieldTask t ∈ runEv (Phabricator.fetch srv fuel) s →
      goodTask t = true :=
  fun t ht => ((ygood_fetch srv fuel hU hT) s hC).1 t ht

/-- The task of `serverOnePage` as the fetch yields it. -/
def enrichedTaskA : Json :=
  Json.obj [("id", Json.num 1),
    ("fields", Json.obj [("authorPHID", Json.str "U1"),
                         ("ownerPHID", Json.str "U2"),
                         ("dateModified", Json.num 100),
                         ("authorData", userAlice),
                         ("ownerData", userAlice)]),
    ("transactions", Json.arr [])]

/-- Witness for claim C1 at a concrete input: the task yielded by a fetch
against `serverOnePage` satisfies the enrichment invariant. -/
theorem every_yielded_task_enriched_witness : goodTask enrichedTaskA = true :=
  every_yielded_task_enriched serverOnePage 2 initSt
    (by
      intro ps body us h1 h2 u hu
      rw [show ConduitClient.callResult (serverOnePage.users ps) =
        Except.ok (okEnvelope (Json.arr [userAlice])) from rfl] at h1
      injection h1 with h1
      subst h1
      rw [show Phabricator.parse_users (okEnvelope (Json.arr [userAlice])) =
        Except.ok [userAlice] from rfl] at h2
      injection h2 with h2
      subst h2
      simp only [List.mem_singleton] at hu
      subst hu
      decide)
    (by
      intro ids body res kvs h1 h2 h3 kv hkv
      rw [show ConduitClient.callResult (serverOnePage.transactions ids) =
        Except.ok transBody1 from rfl] at h1
      injection h1 with h1
      subst h1
      rw [show Phabricator.parse_tasks_transactions transBody1 =
        Except.ok (Json.obj [("1", Json.arr [])]) from rfl] at h2
      injection h2 with h2
      subst h2
      injection h3 with h3
      subst h3
      simp only [List.mem_singleton] at hkv
      subst hkv
      exact ⟨[], rfl⟩)
    (fun kv hkv => absurd hkv (List.not_mem_nil kv))
    enrichedTaskA (by decide)
